import Mathlib

/-!
Verification of the schema-consolidation tool
(`backend/scripts/create_consolidated_migration.py`) and of the naming check of
the migration-order validator (`backend/scripts/check_migration_order.py`).

The Python tool scans a schema dump with seven regular expressions
(`re.finditer` / `re.findall`) and re-emits the categorized statements in a
fixed order.  Each of the seven patterns is deterministic: every greedy
sub-pattern (`\w+`, `\s+`, `[^;]+`, `[^)]+`) is followed by a character it can
never match, so backtracking can never produce a different result.  We embed
each pattern as an executable matcher over `List Char` (anchored at the current
position) together with a scanner that, like `re.finditer`, tries the matcher
at every position, emits non-overlapping matches from left to right, and
resumes after each match.  `\w` is modelled as ASCII alphanumeric or
underscore and `\s` as Python's six whitespace characters; the dumps this tool
consumes are ASCII.
-/

set_option maxHeartbeats 4000000
set_option maxRecDepth 100000

namespace EconGraph

/-- Model of Python's `\w` character class (ASCII fragment). -/
def isWordChar (c : Char) : Bool := c.isAlphanum || c = '_'

/-- Model of Python's `\s` character class (ASCII fragment):
space, tab, newline, carriage return, vertical tab, form feed. -/
def isPySpace (c : Char) : Bool :=
  c = ' ' || c = '\t' || c = '\n' || c = '\r' || c = '\x0b' || c = '\x0c'

/-- The first character of `r` (if any) falsifies `p`. -/
def headNot (p : Char → Bool) (r : List Char) : Prop :=
  ∀ c, r.head? = some c → p c = false

theorem headNot_nil (p : Char → Bool) : headNot p [] := by
  intro c h; simp at h

theorem headNot_cons {p : Char → Bool} {c : Char} {t : List Char}
    (h : p c = false) : headNot p (c :: t) := by
  intro d hd; simp at hd; rwa [← hd]

/-- Match a literal list of characters at the head of the input and return the
remainder. -/
def lit : List Char → List Char → Option (List Char)
  | [], s => some s
  | _ :: _, [] => none
  | c :: l, d :: s => if c = d then lit l s else none

theorem lit_eq_some : ∀ (l s r : List Char), lit l s = some r ↔ s = l ++ r := by
  intro l
  induction l with
  | nil =>
    intro s r
    simp [lit, eq_comm]
  | cons c l ih =>
    intro s r
    cases s with
    | nil => simp [lit]
    | cons d s' =>
      simp only [lit, List.cons_append]
      by_cases hcd : c = d
      · subst hcd
        simp [ih]
      · rw [if_neg hcd]
        simp only [List.cons.injEq]
        constructor
        · intro h; exact absurd h (by simp)
        · rintro ⟨h1, -⟩; exact absurd h1.symm hcd

/-- A maximal nonempty run of characters satisfying `p`. -/
def runOf (p : Char → Bool) (s : List Char) : Option (List Char × List Char) :=
  if s.takeWhile p = [] then none
  else some (s.takeWhile p, s.dropWhile p)

theorem takeWhile_all (p : Char → Bool) :
    ∀ (l : List Char), ∀ c ∈ l.takeWhile p, p c = true := by
  intro l
  induction l with
  | nil => intro c hc; simp at hc
  | cons d t ih =>
    intro c hc
    by_cases hd : p d
    · rw [List.takeWhile_cons_of_pos hd] at hc
      rcases List.mem_cons.mp hc with h | h
      · rwa [h]
      · exact ih c h
    · rw [List.takeWhile_cons_of_neg hd] at hc
      simp at hc

theorem dropWhile_headNot (p : Char → Bool) :
    ∀ (l : List Char), headNot p (l.dropWhile p) := by
  intro l
  induction l with
  | nil => exact headNot_nil p
  | cons d t ih =>
    by_cases hd : p d
    · rwa [List.dropWhile_cons_of_pos hd]
    · rw [List.dropWhile_cons_of_neg hd]
      exact headNot_cons (Bool.eq_false_iff.mpr hd)

theorem takeWhile_append_run {p : Char → Bool} {w r : List Char}
    (hw : ∀ c ∈ w, p c = true) (hr : headNot p r) :
    (w ++ r).takeWhile p = w ∧ (w ++ r).dropWhile p = r := by
  induction w with
  | nil =>
    simp only [List.nil_append]
    cases r with
    | nil => simp
    | cons c t =>
      have hc : p c = false := hr c rfl
      constructor
      · exact List.takeWhile_cons_of_neg (by simp [hc])
      · exact List.dropWhile_cons_of_neg (by simp [hc])
  | cons c w ih =>
    have hc : p c = true := hw c (List.mem_cons_self _ _)
    have ih' := ih (fun d hd => hw d (List.mem_cons_of_mem _ hd))
    constructor
    · rw [List.cons_append, List.takeWhile_cons_of_pos hc, ih'.1]
    · rw [List.cons_append, List.dropWhile_cons_of_pos hc, ih'.2]

theorem runOf_eq_some (p : Char → Bool) (s w r : List Char) :
    runOf p s = some (w, r) ↔
      s = w ++ r ∧ w ≠ [] ∧ (∀ c ∈ w, p c = true) ∧ headNot p r := by
  constructor
  · intro h
    unfold runOf at h
    split at h
    · exact absurd h (by simp)
    · rename_i hne
      have hw : s.takeWhile p = w ∧ s.dropWhile p = r := by
        have := Option.some.inj h
        exact ⟨congrArg Prod.fst this, congrArg Prod.snd this⟩
      refine ⟨?_, ?_, ?_, ?_⟩
      · rw [← hw.1, ← hw.2, List.takeWhile_append_dropWhile]
      · rw [← hw.1]; exact hne
      · rw [← hw.1]; exact takeWhile_all p s
      · rw [← hw.2]; exact dropWhile_headNot p s
  · rintro ⟨rfl, hne, hall, hhead⟩
    have h := takeWhile_append_run hall hhead
    unfold runOf
    rw [h.1, h.2, if_neg hne]

/-- Everything strictly before the first occurrence of `ch`, fails when `ch`
is absent; the remainder starts with `ch`. -/
def untilChar (ch : Char) (s : List Char) : Option (List Char × List Char) :=
  if s.dropWhile (fun d => !(d == ch)) = [] then none
  else some (s.takeWhile (fun d => !(d == ch)), s.dropWhile (fun d => !(d == ch)))

theorem untilChar_eq_some (ch : Char) (s u r : List Char) :
    untilChar ch s = some (u, r) ↔
      s = u ++ r ∧ ch ∉ u ∧ ∃ r', r = ch :: r' := by
  constructor
  · intro h
    unfold untilChar at h
    split at h
    · exact absurd h (by simp)
    · rename_i hne
      have hw : s.takeWhile (fun d => !(d == ch)) = u ∧
          s.dropWhile (fun d => !(d == ch)) = r := by
        have := Option.some.inj h
        exact ⟨congrArg Prod.fst this, congrArg Prod.snd this⟩
      refine ⟨?_, ?_, ?_⟩
      · rw [← hw.1, ← hw.2, List.takeWhile_append_dropWhile]
      · intro hmem
        have := takeWhile_all (fun d => !(d == ch)) s ch (hw.1 ▸ hmem)
        simp at this
      · rcases hre : r with _ | ⟨c, r'⟩
        · rw [hre] at hw; exact absurd hw.2 hne
        · refine ⟨r', ?_⟩
          have hh := dropWhile_headNot (fun d => !(d == ch)) s
          rw [hw.2, hre] at hh
          have hc := hh c rfl
          simp at hc
          rw [hc]
  · rintro ⟨rfl, hnm, r', rfl⟩
    have hall : ∀ c ∈ u, (fun d => !(d == ch)) c = true := by
      intro c hc
      simp only [Bool.not_eq_true']
      exact beq_false_of_ne (fun he => hnm (he ▸ hc))
    have hhead : headNot (fun d => !(d == ch)) (ch :: r') :=
      headNot_cons (by simp)
    have h := takeWhile_append_run hall hhead
    unfold untilChar
    rw [h.1, h.2, if_neg (by simp)]

theorem optIf_eq_some (P : Prop) [Decidable P] {α : Type} (a b : α) :
    (if P then some a else none) = some b ↔ P ∧ a = b := by
  split
  · rename_i hp
    simp [hp]
  · rename_i hp
    simp [hp]

theorem getLast?_concat_char (l : List Char) (x : Char) :
    (l ++ [x]).getLast? = some x := by
  induction l with
  | nil => rfl
  | cons c t ih =>
    cases t with
    | nil => rfl
    | cons d t' =>
      have hsh : c :: (d :: t') ++ [x] = c :: d :: (t' ++ [x]) := rfl
      rw [hsh, List.getLast?_cons_cons]
      exact ih

theorem mem_of_getLast?_eq {l : List Char} {x : Char}
    (h : l.getLast? = some x) : x ∈ l := by
  induction l with
  | nil => simp at h
  | cons c t ih =>
    cases t with
    | nil =>
      have hc : c = x := by simpa using h
      simp [hc]
    | cons d t' =>
      rw [List.getLast?_cons_cons] at h
      exact List.mem_cons_of_mem _ (ih h)

theorem eq_dropLast_concat {x : Char} :
    ∀ {l : List Char}, l.getLast? = some x → l = l.dropLast ++ [x] := by
  intro l
  induction l with
  | nil => intro h; simp at h
  | cons c t ih =>
    intro h
    cases t with
    | nil =>
      have hc : c = x := by simpa using h
      simp [hc]
    | cons d t' =>
      rw [List.getLast?_cons_cons] at h
      have ht := ih h
      show c :: (d :: t') = (c :: d :: t').dropLast ++ [x]
      have hdl : (c :: d :: t').dropLast = c :: (d :: t').dropLast := rfl
      rw [hdl, List.cons_append, ← ht]

theorem space_not_word {c : Char} (h : isPySpace c = true) :
    isWordChar c = false := by
  unfold isPySpace at h
  simp only [Bool.or_eq_true, decide_eq_true_eq] at h
  rcases h with ((((h | h) | h) | h) | h) | h <;> subst h <;> decide

theorem headNot_space_run {ws r : List Char} (hne : ws ≠ [])
    (hall : ∀ c ∈ ws, isPySpace c = true) : headNot isWordChar (ws ++ r) := by
  cases ws with
  | nil => exact absurd rfl hne
  | cons c t => exact headNot_cons (space_not_word (hall c (List.mem_cons_self _ _)))

/-! ### The seven statement matchers

Each matcher is the anchored form of one of the Python regular expressions of
`extract_ddl_statements`.  Each comes with a specification lemma of the
uniform shape `match s = some (a, r) ↔ ∃ u, s = u ++ r ∧ Phi a u`, where the
predicate `Phi` describes the consumed span `u` exactly and implies that `u`
ends with a semicolon.  These two facts drive all scanning lemmas.
-/

/-- Anchored form of `CREATE EXTENSION IF NOT EXISTS (\w+) WITH SCHEMA public;`. -/
def matchExtension (s : List Char) : Option (List Char × List Char) :=
  (lit "CREATE EXTENSION IF NOT EXISTS ".data s).bind fun s1 =>
  (runOf isWordChar s1).bind fun p =>
  (lit " WITH SCHEMA public;".data p.2).bind fun r =>
  some (p.1, r)

def PhiExt (w u : List Char) : Prop :=
  u = "CREATE EXTENSION IF NOT EXISTS ".data ++ w ++ " WITH SCHEMA public;".data ∧
  w ≠ [] ∧ (∀ c ∈ w, isWordChar c = true)

theorem matchExtension_spec (s w r : List Char) :
    matchExtension s = some (w, r) ↔ ∃ u, s = u ++ r ∧ PhiExt w u := by
  constructor
  · intro h
    unfold matchExtension at h
    rw [Option.bind_eq_some] at h
    obtain ⟨s1, h1, h⟩ := h
    rw [Option.bind_eq_some] at h
    obtain ⟨p, h2, h⟩ := h
    obtain ⟨pw, pr⟩ := p
    rw [Option.bind_eq_some] at h
    obtain ⟨r2, h3, h⟩ := h
    dsimp only at h3 h
    have hw : pw = w ∧ r2 = r := by
      have := Option.some.inj h
      exact ⟨congrArg Prod.fst this, congrArg Prod.snd this⟩
    obtain ⟨rfl, rfl⟩ := hw
    rw [lit_eq_some] at h1 h3
    rw [runOf_eq_some] at h2
    obtain ⟨hs1, hne, hall, -⟩ := h2
    refine ⟨_, ?_, rfl, hne, hall⟩
    rw [h1, hs1, h3]
    simp [List.append_assoc]
  · rintro ⟨u, rfl, hu, hne, hall⟩
    subst hu
    have h1 : lit "CREATE EXTENSION IF NOT EXISTS ".data
        (("CREATE EXTENSION IF NOT EXISTS ".data ++ w ++ " WITH SCHEMA public;".data) ++ r)
        = some (w ++ (" WITH SCHEMA public;".data ++ r)) :=
      (lit_eq_some _ _ _).mpr (by simp [List.append_assoc])
    have h2 : runOf isWordChar (w ++ (" WITH SCHEMA public;".data ++ r))
        = some (w, " WITH SCHEMA public;".data ++ r) :=
      (runOf_eq_some _ _ _ _).mpr ⟨rfl, hne, hall, headNot_cons (by decide)⟩
    have h3 : lit " WITH SCHEMA public;".data (" WITH SCHEMA public;".data ++ r) = some r :=
      (lit_eq_some _ _ _).mpr rfl
    unfold matchExtension
    simp only [h1, h2, h3, Option.some_bind]

theorem PhiExt_semi {w u : List Char} (h : PhiExt w u) :
    u.getLast? = some ';' := by
  obtain ⟨rfl, -, -⟩ := h
  have hsplit : "CREATE EXTENSION IF NOT EXISTS ".data ++ w ++ " WITH SCHEMA public;".data
      = ("CREATE EXTENSION IF NOT EXISTS ".data ++ w ++ " WITH SCHEMA public".data) ++ [';'] := by
    simp [List.append_assoc]
  rw [hsplit, getLast?_concat_char]

/-- Succeeds (with no information) exactly when the proposition holds. -/
def check (P : Prop) [Decidable P] : Option Unit :=
  if P then some () else none

theorem check_eq_some (P : Prop) [Decidable P] (u : Unit) :
    check P = some u ↔ P := by
  unfold check
  split
  · rename_i hp; simp [hp]
  · rename_i hp; simp [hp]

/-- Anchored form of `CREATE TYPE public\.(\w+) AS ENUM \(([^)]+)\);`
(the two captures are the type name and the raw value-list text). -/
def matchType (s : List Char) : Option ((List Char × List Char) × List Char) :=
  (lit "CREATE TYPE public.".data s).bind fun s1 =>
  (runOf isWordChar s1).bind fun p =>
  (lit " AS ENUM (".data p.2).bind fun s2 =>
  (untilChar ')' s2).bind fun q =>
  (check (q.1 ≠ [])).bind fun _ =>
  (lit ");".data q.2).bind fun r =>
  some ((p.1, q.1), r)

def PhiType (a : List Char × List Char) (u : List Char) : Prop :=
  u = "CREATE TYPE public.".data ++ a.1 ++ " AS ENUM (".data ++ a.2 ++ ");".data ∧
  a.1 ≠ [] ∧ (∀ c ∈ a.1, isWordChar c = true) ∧ a.2 ≠ [] ∧ ')' ∉ a.2

theorem matchType_spec (s : List Char) (a : List Char × List Char) (r : List Char) :
    matchType s = some (a, r) ↔ ∃ u, s = u ++ r ∧ PhiType a u := by
  obtain ⟨nm, vals⟩ := a
  constructor
  · intro h
    unfold matchType at h
    rw [Option.bind_eq_some] at h
    obtain ⟨s1, h1, h⟩ := h
    rw [Option.bind_eq_some] at h
    obtain ⟨p, h2, h⟩ := h
    obtain ⟨pw, pr⟩ := p
    rw [Option.bind_eq_some] at h
    obtain ⟨s2, h3, h⟩ := h
    rw [Option.bind_eq_some] at h
    obtain ⟨q, h4, h⟩ := h
    obtain ⟨qv, qr⟩ := q
    rw [Option.bind_eq_some] at h
    obtain ⟨uu, h5, h⟩ := h
    rw [Option.bind_eq_some] at h
    obtain ⟨r2, h6, h⟩ := h
    dsimp only at h3 h4 h6 h
    rw [check_eq_some] at h5
    have hw : pw = nm ∧ qv = vals ∧ r2 = r := by
      have hinj := Option.some.inj h
      refine ⟨?_, ?_, congrArg Prod.snd hinj⟩
      · have := congrArg Prod.fst hinj; exact congrArg Prod.fst this
      · have := congrArg Prod.fst hinj; exact congrArg Prod.snd this
    obtain ⟨rfl, rfl, rfl⟩ := hw
    rw [lit_eq_some] at h1 h3 h6
    rw [runOf_eq_some] at h2
    rw [untilChar_eq_some] at h4
    obtain ⟨hs1, hne, hall, -⟩ := h2
    obtain ⟨hs2, hnp, -⟩ := h4
    refine ⟨_, ?_, rfl, hne, hall, h5, hnp⟩
    rw [h1, hs1, h3, hs2, h6]
    simp [List.append_assoc]
  · rintro ⟨u, rfl, hu, hne, hall, hvne, hnp⟩
    subst hu
    have h1 : lit "CREATE TYPE public.".data
        (("CREATE TYPE public.".data ++ nm ++ " AS ENUM (".data ++ vals ++ ");".data) ++ r)
        = some (nm ++ (" AS ENUM (".data ++ (vals ++ (");".data ++ r)))) :=
      (lit_eq_some _ _ _).mpr (by simp [List.append_assoc])
    have h2 : runOf isWordChar (nm ++ (" AS ENUM (".data ++ (vals ++ (");".data ++ r))))
        = some (nm, " AS ENUM (".data ++ (vals ++ (");".data ++ r))) :=
      (runOf_eq_some _ _ _ _).mpr ⟨rfl, hne, hall, headNot_cons (by decide)⟩
    have h3 : lit " AS ENUM (".data (" AS ENUM (".data ++ (vals ++ (");".data ++ r)))
        = some (vals ++ (");".data ++ r)) :=
      (lit_eq_some _ _ _).mpr rfl
    have h4 : untilChar ')' (vals ++ (");".data ++ r))
        = some (vals, ");".data ++ r) :=
      (untilChar_eq_some _ _ _ _).mpr ⟨rfl, hnp, ⟨';' :: r, rfl⟩⟩
    have h5 : check (vals ≠ []) = some () := (check_eq_some _ _).mpr hvne
    have h6 : lit ");".data (");".data ++ r) = some r :=
      (lit_eq_some _ _ _).mpr rfl
    unfold matchType
    simp only [h1, h2, h3, h4, h5, h6, Option.some_bind]

theorem PhiType_semi {a : List Char × List Char} {u : List Char}
    (h : PhiType a u) : u.getLast? = some ';' := by
  obtain ⟨hu, -, -, -, -⟩ := h
  subst hu
  have hsplit : "CREATE TYPE public.".data ++ a.1 ++ " AS ENUM (".data ++ a.2 ++ ");".data
      = ("CREATE TYPE public.".data ++ a.1 ++ " AS ENUM (".data ++ a.2 ++ ")".data) ++ [';'] := by
    simp [List.append_assoc]
  rw [hsplit, getLast?_concat_char]

/-- Anchored form of `CREATE TABLE public\.(\w+) \(([^;]+)\);`.  The capture
`([^;]+)` is the text before the closing `);`, so the matcher checks that the
first semicolon is preceded by a closing parenthesis and returns the span in
front of that parenthesis. -/
def matchTable (s : List Char) : Option ((List Char × List Char) × List Char) :=
  (lit "CREATE TABLE public.".data s).bind fun p0 =>
  (runOf isWordChar p0).bind fun p =>
  (lit " (".data p.2).bind fun s2 =>
  (untilChar ';' s2).bind fun q =>
  (check (q.1.getLast? = some ')' ∧ 2 ≤ q.1.length)).bind fun _ =>
  (lit [';'] q.2).bind fun r =>
  some ((p.1, q.1.dropLast), r)

def PhiTable (a : List Char × List Char) (u : List Char) : Prop :=
  u = "CREATE TABLE public.".data ++ a.1 ++ " (".data ++ a.2 ++ [')', ';'] ∧
  a.1 ≠ [] ∧ (∀ c ∈ a.1, isWordChar c = true) ∧ a.2 ≠ [] ∧ ';' ∉ a.2

theorem matchTable_spec (s : List Char) (a : List Char × List Char) (r : List Char) :
    matchTable s = some (a, r) ↔ ∃ u, s = u ++ r ∧ PhiTable a u := by
  obtain ⟨nm, body⟩ := a
  constructor
  · intro h
    unfold matchTable at h
    rw [Option.bind_eq_some] at h
    obtain ⟨s1, h1, h⟩ := h
    rw [Option.bind_eq_some] at h
    obtain ⟨p, h2, h⟩ := h
    obtain ⟨pw, pr⟩ := p
    rw [Option.bind_eq_some] at h
    obtain ⟨s2, h3, h⟩ := h
    rw [Option.bind_eq_some] at h
    obtain ⟨q, h4, h⟩ := h
    obtain ⟨qv, qr⟩ := q
    rw [Option.bind_eq_some] at h
    obtain ⟨uu, h5, h⟩ := h
    rw [Option.bind_eq_some] at h
    obtain ⟨r2, h6, h⟩ := h
    dsimp only at h3 h4 h6 h
    rw [check_eq_some] at h5
    obtain ⟨hlast, hlen⟩ := h5
    have hw : pw = nm ∧ qv.dropLast = body ∧ r2 = r := by
      have hinj := Option.some.inj h
      refine ⟨?_, ?_, congrArg Prod.snd hinj⟩
      · have := congrArg Prod.fst hinj; exact congrArg Prod.fst this
      · have := congrArg Prod.fst hinj; exact congrArg Prod.snd this
    obtain ⟨rfl, hbody, rfl⟩ := hw
    rw [lit_eq_some] at h1 h3 h6
    rw [runOf_eq_some] at h2
    rw [untilChar_eq_some] at h4
    obtain ⟨hs1, hne, hall, -⟩ := h2
    obtain ⟨hs2, hnosemi, -⟩ := h4
    have hq : qv = body ++ [')'] := by
      rw [← hbody]; exact eq_dropLast_concat hlast
    have hbne : body ≠ [] := by
      intro hb
      rw [hq, hb] at hlen
      simp at hlen
    have hbsemi : ';' ∉ body := fun hm => hnosemi (hq ▸ List.mem_append_left _ hm)
    refine ⟨_, ?_, rfl, hne, hall, hbne, hbsemi⟩
    rw [h1, hs1, h3, hs2, hq, h6]
    simp [List.append_assoc]
  · rintro ⟨u, rfl, hu, hne, hall, hbne, hbsemi⟩
    subst hu
    have h1 : lit "CREATE TABLE public.".data
        (("CREATE TABLE public.".data ++ nm ++ " (".data ++ body ++ [')', ';']) ++ r)
        = some (nm ++ (" (".data ++ ((body ++ [')']) ++ ([';'] ++ r)))) :=
      (lit_eq_some _ _ _).mpr (by simp [List.append_assoc])
    have h2 : runOf isWordChar (nm ++ (" (".data ++ ((body ++ [')']) ++ ([';'] ++ r))))
        = some (nm, " (".data ++ ((body ++ [')']) ++ ([';'] ++ r))) :=
      (runOf_eq_some _ _ _ _).mpr ⟨rfl, hne, hall, headNot_cons (by decide)⟩
    have h3 : lit " (".data (" (".data ++ ((body ++ [')']) ++ ([';'] ++ r)))
        = some ((body ++ [')']) ++ ([';'] ++ r)) :=
      (lit_eq_some _ _ _).mpr rfl
    have h4 : untilChar ';' ((body ++ [')']) ++ ([';'] ++ r))
        = some (body ++ [')'], [';'] ++ r) :=
      (untilChar_eq_some _ _ _ _).mpr
        ⟨rfl, by simp [hbsemi], ⟨r, rfl⟩⟩
    have h5 : check ((body ++ [')']).getLast? = some ')' ∧ 2 ≤ (body ++ [')']).length)
        = some () :=
      (check_eq_some _ _).mpr ⟨getLast?_concat_char _ _, by
        have hpos : 0 < body.length := List.length_pos.mpr hbne
        simp [List.length_append]
        omega⟩
    have h6 : lit [';'] ([';'] ++ r) = some r := (lit_eq_some _ _ _).mpr rfl
    unfold matchTable
    simp only [h1, h2, h3, h4, h5, h6, Option.some_bind, List.dropLast_concat]

theorem PhiTable_semi {a : List Char × List Char} {u : List Char}
    (h : PhiTable a u) : u.getLast? = some ';' := by
  obtain ⟨hu, -, -, -, -⟩ := h
  subst hu
  have hsplit : "CREATE TABLE public.".data ++ a.1 ++ " (".data ++ a.2 ++ [')', ';']
      = ("CREATE TABLE public.".data ++ a.1 ++ " (".data ++ a.2 ++ [')']) ++ [';'] := by
    simp [List.append_assoc]
  rw [hsplit, getLast?_concat_char]

/-- Anchored form of `CREATE TRIGGER (\w+) ([^;]+);`. -/
def matchTrigger (s : List Char) : Option ((List Char × List Char) × List Char) :=
  (lit "CREATE TRIGGER ".data s).bind fun s1 =>
  (runOf isWordChar s1).bind fun p =>
  (lit [' '] p.2).bind fun s2 =>
  (untilChar ';' s2).bind fun q =>
  (check (q.1 ≠ [])).bind fun _ =>
  (lit [';'] q.2).bind fun r =>
  some ((p.1, q.1), r)

def PhiTrig (a : List Char × List Char) (u : List Char) : Prop :=
  u = "CREATE TRIGGER ".data ++ a.1 ++ [' '] ++ a.2 ++ [';'] ∧
  a.1 ≠ [] ∧ (∀ c ∈ a.1, isWordChar c = true) ∧ a.2 ≠ [] ∧ ';' ∉ a.2

theorem matchTrigger_spec (s : List Char) (a : List Char × List Char) (r : List Char) :
    matchTrigger s = some (a, r) ↔ ∃ u, s = u ++ r ∧ PhiTrig a u := by
  obtain ⟨nm, d⟩ := a
  constructor
  · intro h
    unfold matchTrigger at h
    rw [Option.bind_eq_some] at h
    obtain ⟨s1, h1, h⟩ := h
    rw [Option.bind_eq_some] at h
    obtain ⟨p, h2, h⟩ := h
    obtain ⟨pw, pr⟩ := p
    rw [Option.bind_eq_some] at h
    obtain ⟨s2, h3, h⟩ := h
    rw [Option.bind_eq_some] at h
    obtain ⟨q, h4, h⟩ := h
    obtain ⟨qv, qr⟩ := q
    rw [Option.bind_eq_some] at h
    obtain ⟨uu, h5, h⟩ := h
    rw [Option.bind_eq_some] at h
    obtain ⟨r2, h6, h⟩ := h
    dsimp only at h3 h4 h6 h
    rw [check_eq_some] at h5
    have hw : pw = nm ∧ qv = d ∧ r2 = r := by
      have hinj := Option.some.inj h
      refine ⟨?_, ?_, congrArg Prod.snd hinj⟩
      · have := congrArg Prod.fst hinj; exact congrArg Prod.fst this
      · have := congrArg Prod.fst hinj; exact congrArg Prod.snd this
    obtain ⟨rfl, rfl, rfl⟩ := hw
    rw [lit_eq_some] at h1 h3 h6
    rw [runOf_eq_some] at h2
    rw [untilChar_eq_some] at h4
    obtain ⟨hs1, hne, hall, -⟩ := h2
    obtain ⟨hs2, hnosemi, -⟩ := h4
    refine ⟨_, ?_, rfl, hne, hall, h5, hnosemi⟩
    rw [h1, hs1, h3, hs2, h6]
    simp [List.append_assoc]
  · rintro ⟨u, rfl, hu, hne, hall, hdne, hdsemi⟩
    subst hu
    have h1 : lit "CREATE TRIGGER ".data
        (("CREATE TRIGGER ".data ++ nm ++ [' '] ++ d ++ [';']) ++ r)
        = some (nm ++ ([' '] ++ (d ++ ([';'] ++ r)))) :=
      (lit_eq_some _ _ _).mpr (by simp [List.append_assoc])
    have h2 : runOf isWordChar (nm ++ ([' '] ++ (d ++ ([';'] ++ r))))
        = some (nm, [' '] ++ (d ++ ([';'] ++ r))) :=
      (runOf_eq_some _ _ _ _).mpr ⟨rfl, hne, hall, headNot_cons (by decide)⟩
    have h3 : lit [' '] ([' '] ++ (d ++ ([';'] ++ r))) = some (d ++ ([';'] ++ r)) :=
      (lit_eq_some _ _ _).mpr rfl
    have h4 : untilChar ';' (d ++ ([';'] ++ r)) = some (d, [';'] ++ r) :=
      (untilChar_eq_some _ _ _ _).mpr ⟨rfl, hdsemi, ⟨r, rfl⟩⟩
    have h5 : check (d ≠ []) = some () := (check_eq_some _ _).mpr hdne
    have h6 : lit [';'] ([';'] ++ r) = some r := (lit_eq_some _ _ _).mpr rfl
    unfold matchTrigger
    simp only [h1, h2, h3, h4, h5, h6, Option.some_bind]

theorem PhiTrig_semi {a : List Char × List Char} {u : List Char}
    (h : PhiTrig a u) : u.getLast? = some ';' := by
  obtain ⟨hu, -, -, -, -⟩ := h
  subst hu
  have hsplit : "CREATE TRIGGER ".data ++ a.1 ++ [' '] ++ a.2 ++ [';']
      = ("CREATE TRIGGER ".data ++ a.1 ++ [' '] ++ a.2) ++ [';'] := by
    simp [List.append_assoc]
  rw [hsplit, getLast?_concat_char]

/-- Anchored form of `ALTER TABLE ONLY public\.(\w+)\s+ADD CONSTRAINT (\w+) ([^;]+);`. -/
def matchConstraint (s : List Char) :
    Option ((List Char × List Char × List Char) × List Char) :=
  (lit "ALTER TABLE ONLY public.".data s).bind fun s1 =>
  (runOf isWordChar s1).bind fun pt =>
  (runOf isPySpace pt.2).bind fun pw =>
  (lit "ADD CONSTRAINT ".data pw.2).bind fun s2 =>
  (runOf isWordChar s2).bind fun pn =>
  (lit [' '] pn.2).bind fun s3 =>
  (untilChar ';' s3).bind fun pd =>
  (check (pd.1 ≠ [])).bind fun _ =>
  (lit [';'] pd.2).bind fun r =>
  some ((pt.1, pn.1, pd.1), r)

def PhiCons (a : List Char × List Char × List Char) (u : List Char) : Prop :=
  ∃ ws, u = "ALTER TABLE ONLY public.".data ++ a.1 ++ ws ++ "ADD CONSTRAINT ".data ++
      a.2.1 ++ [' '] ++ a.2.2 ++ [';'] ∧
    a.1 ≠ [] ∧ (∀ c ∈ a.1, isWordChar c = true) ∧
    ws ≠ [] ∧ (∀ c ∈ ws, isPySpace c = true) ∧
    a.2.1 ≠ [] ∧ (∀ c ∈ a.2.1, isWordChar c = true) ∧
    a.2.2 ≠ [] ∧ ';' ∉ a.2.2

theorem matchConstraint_spec (s : List Char) (a : List Char × List Char × List Char)
    (r : List Char) :
    matchConstraint s = some (a, r) ↔ ∃ u, s = u ++ r ∧ PhiCons a u := by
  obtain ⟨tb, nm, d⟩ := a
  constructor
  · intro h
    unfold matchConstraint at h
    rw [Option.bind_eq_some] at h
    obtain ⟨s1, h1, h⟩ := h
    rw [Option.bind_eq_some] at h
    obtain ⟨pt, h2, h⟩ := h
    obtain ⟨tv, tr⟩ := pt
    rw [Option.bind_eq_some] at h
    obtain ⟨pw, h2w, h⟩ := h
    obtain ⟨wv, wr⟩ := pw
    rw [Option.bind_eq_some] at h
    obtain ⟨s2, h3, h⟩ := h
    rw [Option.bind_eq_some] at h
    obtain ⟨pn, h4, h⟩ := h
    obtain ⟨nv, nr⟩ := pn
    rw [Option.bind_eq_some] at h
    obtain ⟨s3, h5, h⟩ := h
    rw [Option.bind_eq_some] at h
    obtain ⟨pd, h6, h⟩ := h
    obtain ⟨dv, dr⟩ := pd
    rw [Option.bind_eq_some] at h
    obtain ⟨uu, h7, h⟩ := h
    rw [Option.bind_eq_some] at h
    obtain ⟨r2, h8, h⟩ := h
    dsimp only at h2w h3 h4 h5 h6 h8 h
    rw [check_eq_some] at h7
    have hw : tv = tb ∧ nv = nm ∧ dv = d ∧ r2 = r := by
      have hinj := Option.some.inj h
      have hfst := congrArg Prod.fst hinj
      have hsnd := congrArg Prod.snd hinj
      refine ⟨congrArg Prod.fst hfst, ?_, ?_, hsnd⟩
      · have := congrArg Prod.snd hfst; exact congrArg Prod.fst this
      · have := congrArg Prod.snd hfst; exact congrArg Prod.snd this
    obtain ⟨rfl, rfl, rfl, rfl⟩ := hw
    rw [lit_eq_some] at h1 h3 h5 h8
    rw [runOf_eq_some] at h2 h2w h4
    rw [untilChar_eq_some] at h6
    obtain ⟨hs1, htne, htall, -⟩ := h2
    obtain ⟨hsw, hwne, hwall, -⟩ := h2w
    obtain ⟨hs2, hnne, hnall, -⟩ := h4
    obtain ⟨hs3, hnosemi, -⟩ := h6
    refine ⟨_, ?_, ⟨wv, rfl, htne, htall, hwne, hwall, hnne, hnall, h7, hnosemi⟩⟩
    rw [h1, hs1, hsw, h3, hs2, h5, hs3, h8]
    simp [List.append_assoc]
  · rintro ⟨u, rfl, ws, hu, htne, htall, hwne, hwall, hnne, hnall, hdne, hdsemi⟩
    subst hu
    have h1 : lit "ALTER TABLE ONLY public.".data
        (("ALTER TABLE ONLY public.".data ++ tb ++ ws ++ "ADD CONSTRAINT ".data ++
          nm ++ [' '] ++ d ++ [';']) ++ r)
        = some (tb ++ (ws ++ ("ADD CONSTRAINT ".data ++
            (nm ++ ([' '] ++ (d ++ ([';'] ++ r))))))) :=
      (lit_eq_some _ _ _).mpr (by simp [List.append_assoc])
    have h2 : runOf isWordChar (tb ++ (ws ++ ("ADD CONSTRAINT ".data ++
          (nm ++ ([' '] ++ (d ++ ([';'] ++ r)))))))
        = some (tb, ws ++ ("ADD CONSTRAINT ".data ++
            (nm ++ ([' '] ++ (d ++ ([';'] ++ r)))))) :=
      (runOf_eq_some _ _ _ _).mpr ⟨rfl, htne, htall, headNot_space_run hwne hwall⟩
    have h2w : runOf isPySpace (ws ++ ("ADD CONSTRAINT ".data ++
          (nm ++ ([' '] ++ (d ++ ([';'] ++ r))))))
        = some (ws, "ADD CONSTRAINT ".data ++ (nm ++ ([' '] ++ (d ++ ([';'] ++ r))))) :=
      (runOf_eq_some _ _ _ _).mpr ⟨rfl, hwne, hwall, headNot_cons (by decide)⟩
    have h3 : lit "ADD CONSTRAINT ".data ("ADD CONSTRAINT ".data ++
          (nm ++ ([' '] ++ (d ++ ([';'] ++ r)))))
        = some (nm ++ ([' '] ++ (d ++ ([';'] ++ r)))) :=
      (lit_eq_some _ _ _).mpr rfl
    have h4 : runOf isWordChar (nm ++ ([' '] ++ (d ++ ([';'] ++ r))))
        = some (nm, [' '] ++ (d ++ ([';'] ++ r))) :=
      (runOf_eq_some _ _ _ _).mpr ⟨rfl, hnne, hnall, headNot_cons (by decide)⟩
    have h5 : lit [' '] ([' '] ++ (d ++ ([';'] ++ r))) = some (d ++ ([';'] ++ r)) :=
      (lit_eq_some _ _ _).mpr rfl
    have h6 : untilChar ';' (d ++ ([';'] ++ r)) = some (d, [';'] ++ r) :=
      (untilChar_eq_some _ _ _ _).mpr ⟨rfl, hdsemi, ⟨r, rfl⟩⟩
    have h7 : check (d ≠ []) = some () := (check_eq_some _ _).mpr hdne
    have h8 : lit [';'] ([';'] ++ r) = some r := (lit_eq_some _ _ _).mpr rfl
    unfold matchConstraint
    simp only [h1, h2, h2w, h3, h4, h5, h6, h7, h8, Option.some_bind]

theorem PhiCons_semi {a : List Char × List Char × List Char} {u : List Char}
    (h : PhiCons a u) : u.getLast? = some ';' := by
  obtain ⟨ws, hu, -⟩ := h
  subst hu
  have hsplit : "ALTER TABLE ONLY public.".data ++ a.1 ++ ws ++ "ADD CONSTRAINT ".data ++
      a.2.1 ++ [' '] ++ a.2.2 ++ [';']
      = ("ALTER TABLE ONLY public.".data ++ a.1 ++ ws ++ "ADD CONSTRAINT ".data ++
        a.2.1 ++ [' '] ++ a.2.2) ++ [';'] := by
    simp [List.append_assoc]
  rw [hsplit, getLast?_concat_char]

/-- Anchored form of `CREATE OR REPLACE FUNCTION public\.(\w+)\([^)]*\) RETURNS ([^;]+);`
(the argument span is scanned but not captured, as in the Python code). -/
def matchFunction (s : List Char) : Option ((List Char × List Char) × List Char) :=
  (lit "CREATE OR REPLACE FUNCTION public.".data s).bind fun s1 =>
  (runOf isWordChar s1).bind fun pn =>
  (lit ['('] pn.2).bind fun s2 =>
  (untilChar ')' s2).bind fun pa =>
  (lit ") RETURNS ".data pa.2).bind fun s3 =>
  (untilChar ';' s3).bind fun pr =>
  (check (pr.1 ≠ [])).bind fun _ =>
  (lit [';'] pr.2).bind fun r =>
  some ((pn.1, pr.1), r)

def PhiFun (a : List Char × List Char) (u : List Char) : Prop :=
  ∃ args, u = "CREATE OR REPLACE FUNCTION public.".data ++ a.1 ++ ['('] ++ args ++
      ") RETURNS ".data ++ a.2 ++ [';'] ∧
    a.1 ≠ [] ∧ (∀ c ∈ a.1, isWordChar c = true) ∧
    ')' ∉ args ∧ a.2 ≠ [] ∧ ';' ∉ a.2

theorem matchFunction_spec (s : List Char) (a : List Char × List Char) (r : List Char) :
    matchFunction s = some (a, r) ↔ ∃ u, s = u ++ r ∧ PhiFun a u := by
  obtain ⟨nm, ret⟩ := a
  constructor
  · intro h
    unfold matchFunction at h
    rw [Option.bind_eq_some] at h
    obtain ⟨s1, h1, h⟩ := h
    rw [Option.bind_eq_some] at h
    obtain ⟨pn, h2, h⟩ := h
    obtain ⟨nv, nr⟩ := pn
    rw [Option.bind_eq_some] at h
    obtain ⟨s2, h3, h⟩ := h
    rw [Option.bind_eq_some] at h
    obtain ⟨pa, h4, h⟩ := h
    obtain ⟨av, ar⟩ := pa
    rw [Option.bind_eq_some] at h
    obtain ⟨s3, h5, h⟩ := h
    rw [Option.bind_eq_some] at h
    obtain ⟨pr, h6, h⟩ := h
    obtain ⟨rv, rr⟩ := pr
    rw [Option.bind_eq_some] at h
    obtain ⟨uu, h7, h⟩ := h
    rw [Option.bind_eq_some] at h
    obtain ⟨r2, h8, h⟩ := h
    dsimp only at h3 h4 h5 h6 h8 h
    rw [check_eq_some] at h7
    have hw : nv = nm ∧ rv = ret ∧ r2 = r := by
      have hinj := Option.some.inj h
      refine ⟨?_, ?_, congrArg Prod.snd hinj⟩
      · have := congrArg Prod.fst hinj; exact congrArg Prod.fst this
      · have := congrArg Prod.fst hinj; exact congrArg Prod.snd this
    obtain ⟨rfl, rfl, rfl⟩ := hw
    rw [lit_eq_some] at h1 h3 h5 h8
    rw [runOf_eq_some] at h2
    rw [untilChar_eq_some] at h4 h6
    obtain ⟨hs1, hne, hall, -⟩ := h2
    obtain ⟨hs2, hnoparen, -⟩ := h4
    obtain ⟨hs3, hnosemi, -⟩ := h6
    refine ⟨_, ?_, ⟨av, rfl, hne, hall, hnoparen, h7, hnosemi⟩⟩
    rw [h1, hs1, h3, hs2, h5, hs3, h8]
    simp [List.append_assoc]
  · rintro ⟨u, rfl, args, hu, hne, hall, hna, hrne, hrsemi⟩
    subst hu
    have h1 : lit "CREATE OR REPLACE FUNCTION public.".data
        (("CREATE OR REPLACE FUNCTION public.".data ++ nm ++ ['('] ++ args ++
          ") RETURNS ".data ++ ret ++ [';']) ++ r)
        = some (nm ++ (['('] ++ (args ++ ([')'] ++ (" RETURNS ".data ++
            (ret ++ ([';'] ++ r))))))) :=
      (lit_eq_some _ _ _).mpr (by simp [List.append_assoc])
    have h2 : runOf isWordChar (nm ++ (['('] ++ (args ++ ([')'] ++ (" RETURNS ".data ++
          (ret ++ ([';'] ++ r)))))))
        = some (nm, ['('] ++ (args ++ ([')'] ++ (" RETURNS ".data ++
            (ret ++ ([';'] ++ r)))))) :=
      (runOf_eq_some _ _ _ _).mpr ⟨rfl, hne, hall, headNot_cons (by decide)⟩
    have h3 : lit ['('] (['('] ++ (args ++ ([')'] ++ (" RETURNS ".data ++
          (ret ++ ([';'] ++ r))))))
        = some (args ++ ([')'] ++ (" RETURNS ".data ++ (ret ++ ([';'] ++ r))))) :=
      (lit_eq_some _ _ _).mpr rfl
    have h4 : untilChar ')' (args ++ ([')'] ++ (" RETURNS ".data ++ (ret ++ ([';'] ++ r)))))
        = some (args, [')'] ++ (" RETURNS ".data ++ (ret ++ ([';'] ++ r)))) :=
      (untilChar_eq_some _ _ _ _).mpr
        ⟨rfl, hna, ⟨" RETURNS ".data ++ (ret ++ ([';'] ++ r)), rfl⟩⟩
    have h5 : lit ") RETURNS ".data ([')'] ++ (" RETURNS ".data ++ (ret ++ ([';'] ++ r))))
        = some (ret ++ ([';'] ++ r)) :=
      (lit_eq_some _ _ _).mpr rfl
    have h6 : untilChar ';' (ret ++ ([';'] ++ r)) = some (ret, [';'] ++ r) :=
      (untilChar_eq_some _ _ _ _).mpr ⟨rfl, hrsemi, ⟨r, rfl⟩⟩
    have h7 : check (ret ≠ []) = some () := (check_eq_some _ _).mpr hrne
    have h8 : lit [';'] ([';'] ++ r) = some r := (lit_eq_some _ _ _).mpr rfl
    unfold matchFunction
    simp only [h1, h2, h3, h4, h5, h6, h7, h8, Option.some_bind]

theorem PhiFun_semi {a : List Char × List Char} {u : List Char}
    (h : PhiFun a u) : u.getLast? = some ';' := by
  obtain ⟨args, hu, -⟩ := h
  subst hu
  have hsplit : "CREATE OR REPLACE FUNCTION public.".data ++ a.1 ++ ['('] ++ args ++
      ") RETURNS ".data ++ a.2 ++ [';']
      = ("CREATE OR REPLACE FUNCTION public.".data ++ a.1 ++ ['('] ++ args ++
        ") RETURNS ".data ++ a.2) ++ [';'] := by
    simp [List.append_assoc]
  rw [hsplit, getLast?_concat_char]

/-- The part of the index pattern after the closing parenthesis of the column
list: the optional non-capturing group `(?: WHERE \([^)]+\))?` followed by the
final `;`.  The regex engine first tries the group (its inner pieces are
forced), and falls back to the empty alternative, which requires `;`
immediately — the two branches are distinguished by the very next character,
so a direct case split is faithful. -/
def matchIndexTail (s2 : List Char) : Option (List Char) :=
  (lit " WHERE (".data s2).elim
    (lit [';'] s2)
    (fun s3 =>
      (untilChar ')' s3).bind fun q =>
      (check (q.1 ≠ [])).bind fun _ =>
      lit ");".data q.2)

/-- Shape of the optional `WHERE` span consumed by `matchIndexTail`. -/
def WhereOpt (w : List Char) : Prop :=
  w = [] ∨ ∃ p, w = " WHERE (".data ++ p ++ [')'] ∧ p ≠ [] ∧ ')' ∉ p

theorem matchIndexTail_spec (s2 r : List Char) :
    matchIndexTail s2 = some r ↔ ∃ w, s2 = w ++ ([';'] ++ r) ∧ WhereOpt w := by
  constructor
  · intro h
    unfold matchIndexTail at h
    cases hl : lit " WHERE (".data s2 with
    | none =>
      rw [hl] at h
      simp only [Option.elim] at h
      rw [lit_eq_some] at h
      exact ⟨[], by simpa using h, Or.inl rfl⟩
    | some s3 =>
      rw [hl] at h
      simp only [Option.elim] at h
      rw [Option.bind_eq_some] at h
      obtain ⟨q, h4, h⟩ := h
      obtain ⟨pv, pr2⟩ := q
      rw [Option.bind_eq_some] at h
      obtain ⟨uu, h5, h⟩ := h
      dsimp only at h5 h
      rw [check_eq_some] at h5
      rw [lit_eq_some] at hl h
      rw [untilChar_eq_some] at h4
      obtain ⟨hs3, hnp, -⟩ := h4
      refine ⟨" WHERE (".data ++ pv ++ [')'], ?_, Or.inr ⟨pv, rfl, h5, hnp⟩⟩
      rw [hl, hs3, h]
      simp [List.append_assoc]
  · rintro ⟨w, rfl, hw⟩
    rcases hw with rfl | ⟨p, rfl, hpne, hnp⟩
    · have hnone : lit " WHERE (".data ([] ++ ([';'] ++ r)) = none := rfl
      unfold matchIndexTail
      rw [hnone]
      simp only [Option.elim]
      exact (lit_eq_some _ _ _).mpr rfl
    · have hsome : lit " WHERE (".data
          ((" WHERE (".data ++ p ++ [')']) ++ ([';'] ++ r))
          = some (p ++ ([')'] ++ ([';'] ++ r))) :=
        (lit_eq_some _ _ _).mpr (by simp [List.append_assoc])
      have h4 : untilChar ')' (p ++ ([')'] ++ ([';'] ++ r)))
          = some (p, [')'] ++ ([';'] ++ r)) :=
        (untilChar_eq_some _ _ _ _).mpr ⟨rfl, hnp, ⟨[';'] ++ r, rfl⟩⟩
      have h5 : check (p ≠ []) = some () := (check_eq_some _ _).mpr hpne
      have h6 : lit ");".data ([')'] ++ ([';'] ++ r)) = some r :=
        (lit_eq_some _ _ _).mpr rfl
      unfold matchIndexTail
      rw [hsome]
      simp only [Option.elim, h4, h5, h6, Option.some_bind]

/-- Anchored form of
`CREATE INDEX (\w+) ON public\.(\w+) USING (\w+) \(([^)]+)\)(?: WHERE \([^)]+\))?;`.
The four captures are the index name, table, method and raw column list; the
`WHERE` group is non-capturing, exactly as in the Python source. -/
def matchIndex (s : List Char) :
    Option ((List Char × List Char × List Char × List Char) × List Char) :=
  (lit "CREATE INDEX ".data s).bind fun s1 =>
  (runOf isWordChar s1).bind fun pn =>
  (lit " ON public.".data pn.2).bind fun s2 =>
  (runOf isWordChar s2).bind fun pt =>
  (lit " USING ".data pt.2).bind fun s3 =>
  (runOf isWordChar s3).bind fun pm =>
  (lit " (".data pm.2).bind fun s4 =>
  (untilChar ')' s4).bind fun pc =>
  (check (pc.1 ≠ [])).bind fun _ =>
  (lit [')'] pc.2).bind fun s5 =>
  (matchIndexTail s5).bind fun r =>
  some ((pn.1, pt.1, pm.1, pc.1), r)

def PhiIdx (a : List Char × List Char × List Char × List Char) (u : List Char) : Prop :=
  ∃ w, u = "CREATE INDEX ".data ++ a.1 ++ " ON public.".data ++ a.2.1 ++
      " USING ".data ++ a.2.2.1 ++ " (".data ++ a.2.2.2 ++ [')'] ++ w ++ [';'] ∧
    a.1 ≠ [] ∧ (∀ c ∈ a.1, isWordChar c = true) ∧
    a.2.1 ≠ [] ∧ (∀ c ∈ a.2.1, isWordChar c = true) ∧
    a.2.2.1 ≠ [] ∧ (∀ c ∈ a.2.2.1, isWordChar c = true) ∧
    a.2.2.2 ≠ [] ∧ ')' ∉ a.2.2.2 ∧ WhereOpt w

theorem matchIndex_spec (s : List Char)
    (a : List Char × List Char × List Char × List Char) (r : List Char) :
    matchIndex s = some (a, r) ↔ ∃ u, s = u ++ r ∧ PhiIdx a u := by
  obtain ⟨nm, tb, mth, cols⟩ := a
  constructor
  · intro h
    unfold matchIndex at h
    rw [Option.bind_eq_some] at h
    obtain ⟨s1, h1, h⟩ := h
    rw [Option.bind_eq_some] at h
    obtain ⟨pn, h2, h⟩ := h
    obtain ⟨nv, nr⟩ := pn
    rw [Option.bind_eq_some] at h
    obtain ⟨s2, h3, h⟩ := h
    rw [Option.bind_eq_some] at h
    obtain ⟨pt, h4, h⟩ := h
    obtain ⟨tv, tr⟩ := pt
    rw [Option.bind_eq_some] at h
    obtain ⟨s3, h5, h⟩ := h
    rw [Option.bind_eq_some] at h
    obtain ⟨pm, h6, h⟩ := h
    obtain ⟨mv, mr⟩ := pm
    rw [Option.bind_eq_some] at h
    obtain ⟨s4, h7, h⟩ := h
    rw [Option.bind_eq_some] at h
    obtain ⟨pc, h8, h⟩ := h
    obtain ⟨cv, cr⟩ := pc
    rw [Option.bind_eq_some] at h
    obtain ⟨uu, h9, h⟩ := h
    rw [Option.bind_eq_some] at h
    obtain ⟨s5, h10, h⟩ := h
    rw [Option.bind_eq_some] at h
    obtain ⟨r2, h11, h⟩ := h
    dsimp only at h3 h4 h5 h6 h7 h8 h10 h11 h
    rw [check_eq_some] at h9
    have hw : nv = nm ∧ tv = tb ∧ mv = mth ∧ cv = cols ∧ r2 = r := by
      have hinj := Option.some.inj h
      have hfst := congrArg Prod.fst hinj
      refine ⟨congrArg Prod.fst hfst, ?_, ?_, ?_, congrArg Prod.snd hinj⟩
      · have h2nd := congrArg Prod.snd hfst
        exact congrArg Prod.fst h2nd
      · have h2nd := congrArg Prod.snd hfst
        have h3rd := congrArg Prod.snd h2nd
        exact congrArg Prod.fst h3rd
      · have h2nd := congrArg Prod.snd hfst
        have h3rd := congrArg Prod.snd h2nd
        exact congrArg Prod.snd h3rd
    obtain ⟨rfl, rfl, rfl, rfl, rfl⟩ := hw
    rw [lit_eq_some] at h1 h3 h5 h7 h10
    rw [runOf_eq_some] at h2 h4 h6
    rw [untilChar_eq_some] at h8
    rw [matchIndexTail_spec] at h11
    obtain ⟨hs1, hnne, hnall, -⟩ := h2
    obtain ⟨hs2, htne, htall, -⟩ := h4
    obtain ⟨hs3, hmne, hmall, -⟩ := h6
    obtain ⟨hs4, hnocp, -⟩ := h8
    obtain ⟨w, hs5, hwopt⟩ := h11
    refine ⟨_, ?_, ⟨w, rfl, hnne, hnall, htne, htall, hmne, hmall, h9, hnocp, hwopt⟩⟩
    rw [h1, hs1, h3, hs2, h5, hs3, h7, hs4, h10, hs5]
    simp [List.append_assoc]
  · rintro ⟨u, rfl, w, hu, hnne, hnall, htne, htall, hmne, hmall, hcne, hnocp, hwopt⟩
    subst hu
    have h1 : lit "CREATE INDEX ".data
        (("CREATE INDEX ".data ++ nm ++ " ON public.".data ++ tb ++
          " USING ".data ++ mth ++ " (".data ++ cols ++ [')'] ++ w ++ [';']) ++ r)
        = some (nm ++ (" ON public.".data ++ (tb ++ (" USING ".data ++ (mth ++
            (" (".data ++ (cols ++ ([')'] ++ (w ++ ([';'] ++ r)))))))))) :=
      (lit_eq_some _ _ _).mpr (by simp [List.append_assoc])
    have h2 : runOf isWordChar (nm ++ (" ON public.".data ++ (tb ++ (" USING ".data ++
          (mth ++ (" (".data ++ (cols ++ ([')'] ++ (w ++ ([';'] ++ r))))))))))
        = some (nm, " ON public.".data ++ (tb ++ (" USING ".data ++ (mth ++
            (" (".data ++ (cols ++ ([')'] ++ (w ++ ([';'] ++ r))))))))) :=
      (runOf_eq_some _ _ _ _).mpr ⟨rfl, hnne, hnall, headNot_cons (by decide)⟩
    have h3 : lit " ON public.".data (" ON public.".data ++ (tb ++ (" USING ".data ++
          (mth ++ (" (".data ++ (cols ++ ([')'] ++ (w ++ ([';'] ++ r)))))))))
        = some (tb ++ (" USING ".data ++ (mth ++ (" (".data ++
            (cols ++ ([')'] ++ (w ++ ([';'] ++ r)))))))) :=
      (lit_eq_some _ _ _).mpr rfl
    have h4 : runOf isWordChar (tb ++ (" USING ".data ++ (mth ++ (" (".data ++
          (cols ++ ([')'] ++ (w ++ ([';'] ++ r))))))))
        = some (tb, " USING ".data ++ (mth ++ (" (".data ++
            (cols ++ ([')'] ++ (w ++ ([';'] ++ r))))))) :=
      (runOf_eq_some _ _ _ _).mpr ⟨rfl, htne, htall, headNot_cons (by decide)⟩
    have h5 : lit " USING ".data (" USING ".data ++ (mth ++ (" (".data ++
          (cols ++ ([')'] ++ (w ++ ([';'] ++ r)))))))
        = some (mth ++ (" (".data ++ (cols ++ ([')'] ++ (w ++ ([';'] ++ r)))))) :=
      (lit_eq_some _ _ _).mpr rfl
    have h6 : runOf isWordChar (mth ++ (" (".data ++ (cols ++ ([')'] ++
          (w ++ ([';'] ++ r))))))
        = some (mth, " (".data ++ (cols ++ ([')'] ++ (w ++ ([';'] ++ r))))) :=
      (runOf_eq_some _ _ _ _).mpr ⟨rfl, hmne, hmall, headNot_cons (by decide)⟩
    have h7 : lit " (".data (" (".data ++ (cols ++ ([')'] ++ (w ++ ([';'] ++ r)))))
        = some (cols ++ ([')'] ++ (w ++ ([';'] ++ r)))) :=
      (lit_eq_some _ _ _).mpr rfl
    have h8 : untilChar ')' (cols ++ ([')'] ++ (w ++ ([';'] ++ r))))
        = some (cols, [')'] ++ (w ++ ([';'] ++ r))) :=
      (untilChar_eq_some _ _ _ _).mpr ⟨rfl, hnocp, ⟨w ++ ([';'] ++ r), rfl⟩⟩
    have h9 : check (cols ≠ []) = some () := (check_eq_some _ _).mpr hcne
    have h10 : lit [')'] ([')'] ++ (w ++ ([';'] ++ r))) = some (w ++ ([';'] ++ r)) :=
      (lit_eq_some _ _ _).mpr rfl
    have h11 : matchIndexTail (w ++ ([';'] ++ r)) = some r :=
      (matchIndexTail_spec _ _).mpr ⟨w, rfl, hwopt⟩
    unfold matchIndex
    simp only [h1, h2, h3, h4, h5, h6, h7, h8, h9, h10, h11, Option.some_bind]

theorem PhiIdx_semi {a : List Char × List Char × List Char × List Char} {u : List Char}
    (h : PhiIdx a u) : u.getLast? = some ';' := by
  obtain ⟨w, hu, -⟩ := h
  subst hu
  have hsplit : "CREATE INDEX ".data ++ a.1 ++ " ON public.".data ++ a.2.1 ++
      " USING ".data ++ a.2.2.1 ++ " (".data ++ a.2.2.2 ++ [')'] ++ w ++ [';']
      = ("CREATE INDEX ".data ++ a.1 ++ " ON public.".data ++ a.2.1 ++
        " USING ".data ++ a.2.2.1 ++ " (".data ++ a.2.2.2 ++ [')'] ++ w) ++ [';'] := by
    simp [List.append_assoc]
  rw [hsplit, getLast?_concat_char]

/-! ### Generic scanning (the `re.finditer` model)

`scanWith m fuel s` tries the anchored matcher `m` at every position of `s`,
emits non-overlapping matches from left to right and resumes scanning right
after each consumed span — the semantics of `re.finditer` for deterministic
patterns.  The fuel argument (instantiated with the input length by `scan`)
makes the recursion structural.
-/

def scanWith {α : Type} (m : List Char → Option (α × List Char)) :
    Nat → List Char → List α
  | 0, _ => []
  | _ + 1, [] => []
  | n + 1, c :: rest =>
    match m (c :: rest) with
    | some (a, r) => a :: scanWith m n r
    | none => scanWith m n rest

def scan {α : Type} (m : List Char → Option (α × List Char)) (s : List Char) : List α :=
  scanWith m s.length s

/-- The matcher satisfies its decomposition specification. -/
def MSpec {α : Type} (m : List Char → Option (α × List Char))
    (Phi : α → List Char → Prop) : Prop :=
  ∀ s a r, m s = some (a, r) ↔ ∃ u, s = u ++ r ∧ Phi a u

/-- Every span accepted by the pattern ends with a semicolon. -/
def MSemi {α : Type} (Phi : α → List Char → Prop) : Prop :=
  ∀ a u, Phi a u → u.getLast? = some ';'

theorem getLast?_append_ne_nil :
    ∀ (a : List Char) {b : List Char}, b ≠ [] → (a ++ b).getLast? = b.getLast? := by
  intro a
  induction a with
  | nil => intro b _; rfl
  | cons c t ih =>
    intro b hb
    have ht : t ++ b ≠ [] := by
      intro hh
      rcases List.append_eq_nil.mp hh with ⟨-, h2⟩
      exact hb h2
    cases hte : t ++ b with
    | nil => exact absurd hte ht
    | cons d l' =>
      rw [List.cons_append, hte, List.getLast?_cons_cons, ← hte, ih hb]

section Scanning

variable {α : Type} {m : List Char → Option (α × List Char)} {Phi : α → List Char → Prop}

theorem match_progress (hspec : MSpec m Phi) (hsemi : MSemi Phi)
    {s : List Char} {a : α} {r : List Char} (h : m s = some (a, r)) :
    r.length < s.length := by
  obtain ⟨u, rfl, hphi⟩ := (hspec s a r).mp h
  have hne : u ≠ [] := by
    intro hu
    rw [hu] at hphi
    have := hsemi a [] hphi
    simp at this
  have hpos := List.length_pos.mpr hne
  rw [List.length_append]
  omega

theorem match_none_of_no_semi (hspec : MSpec m Phi) (hsemi : MSemi Phi)
    {s : List Char} (hs : ';' ∉ s) : m s = none := by
  cases hm : m s with
  | none => rfl
  | some ar =>
    obtain ⟨a, r⟩ := ar
    obtain ⟨u, hsu, hphi⟩ := (hspec s a r).mp hm
    have hu := hsemi a u hphi
    have hmem : ';' ∈ u := mem_of_getLast?_eq hu
    exact absurd (hsu ▸ List.mem_append_left r hmem) hs

theorem match_extend (hspec : MSpec m Phi)
    {xs : List Char} {a : α} {t : List Char} (ys : List Char)
    (h : m xs = some (a, t)) : m (xs ++ ys) = some (a, t ++ ys) := by
  obtain ⟨u, hxs, hphi⟩ := (hspec xs a t).mp h
  exact (hspec (xs ++ ys) a (t ++ ys)).mpr
    ⟨u, by rw [hxs]; simp [List.append_assoc], hphi⟩

theorem match_reflect (hspec : MSpec m Phi) (hsemi : MSemi Phi)
    {xs ys : List Char} {a : α} {r : List Char} (hys : ';' ∉ ys)
    (h : m (xs ++ ys) = some (a, r)) :
    ∃ t, r = t ++ ys ∧ m xs = some (a, t) := by
  obtain ⟨u, heq, hphi⟩ := (hspec (xs ++ ys) a r).mp h
  rcases List.append_eq_append_iff.mp heq with ⟨a', hu, hys'⟩ | ⟨c', hxs, hr⟩
  · cases a' with
    | nil =>
      refine ⟨[], by simpa using hys'.symm, ?_⟩
      exact (hspec xs a []).mpr ⟨u, by rw [hu]; simp, hphi⟩
    | cons d a'' =>
      have hul := hsemi a u hphi
      rw [hu, getLast?_append_ne_nil xs (List.cons_ne_nil d a'')] at hul
      have hmem : ';' ∈ d :: a'' := mem_of_getLast?_eq hul
      exact absurd (hys' ▸ List.mem_append_left r hmem) hys
  · exact ⟨c', hr, (hspec xs a c').mpr ⟨u, hxs, hphi⟩⟩

theorem scanWith_fuel (hspec : MSpec m Phi) (hsemi : MSemi Phi) :
    ∀ (n1 : Nat) {n2 : Nat} {s : List Char}, s.length ≤ n1 → s.length ≤ n2 →
      scanWith m n1 s = scanWith m n2 s := by
  intro n1
  induction n1 with
  | zero =>
    intro n2 s h1 h2
    have : s = [] := List.eq_nil_of_length_eq_zero (Nat.le_zero.mp h1)
    subst this
    cases n2 <;> rfl
  | succ n1 ih =>
    intro n2 s h1 h2
    cases s with
    | nil => cases n2 <;> rfl
    | cons c rest =>
      cases n2 with
      | zero => simp at h2
      | succ n2' =>
        cases hm : m (c :: rest) with
        | some ar =>
          obtain ⟨a, r⟩ := ar
          have hlt := match_progress hspec hsemi hm
          simp only [scanWith, hm]
          have hr1 : r.length ≤ n1 := by
            have := List.length_cons c rest ▸ h1
            omega
          have hr2 : r.length ≤ n2' := by
            have := List.length_cons c rest ▸ h2
            omega
          rw [ih hr1 hr2]
        | none =>
          simp only [scanWith, hm]
          have hr1 : rest.length ≤ n1 := by
            have := List.length_cons c rest ▸ h1
            omega
          have hr2 : rest.length ≤ n2' := by
            have := List.length_cons c rest ▸ h2
            omega
          rw [ih hr1 hr2]

theorem scanWith_no_semi (hspec : MSpec m Phi) (hsemi : MSemi Phi) :
    ∀ (n : Nat) {s : List Char}, ';' ∉ s → scanWith m n s = [] := by
  intro n
  induction n with
  | zero => intro s _; rfl
  | succ n ih =>
    intro s hs
    cases s with
    | nil => rfl
    | cons c rest =>
      have hm : m (c :: rest) = none := match_none_of_no_semi hspec hsemi hs
      simp only [scanWith, hm]
      exact ih (fun hmem => hs (List.mem_cons_of_mem c hmem))

theorem scanWith_append (hspec : MSpec m Phi) (hsemi : MSemi Phi) {ys : List Char}
    (hys : ';' ∉ ys) :
    ∀ (N : Nat) (xs : List Char), xs.length ≤ N →
      scanWith m (xs ++ ys).length (xs ++ ys) = scanWith m xs.length xs := by
  intro N
  induction N with
  | zero =>
    intro xs h
    have : xs = [] := List.eq_nil_of_length_eq_zero (Nat.le_zero.mp h)
    subst this
    simp only [List.nil_append]
    exact scanWith_no_semi hspec hsemi _ hys
  | succ N ih =>
    intro xs h
    cases xs with
    | nil =>
      simp only [List.nil_append]
      exact scanWith_no_semi hspec hsemi _ hys
    | cons c xs' =>
      have hdoc : ((c :: xs') ++ ys).length = (xs' ++ ys).length + 1 := by
        simp
      have hxl : (c :: xs').length = xs'.length + 1 := List.length_cons c xs'
      have hcons : (c :: xs') ++ ys = c :: (xs' ++ ys) := rfl
      rw [hdoc, hxl, hcons]
      cases hm : m (c :: (xs' ++ ys)) with
      | some ar =>
        obtain ⟨a, r⟩ := ar
        have hm' : m ((c :: xs') ++ ys) = some (a, r) := hm
        obtain ⟨t, rfl, hmt⟩ := match_reflect hspec hsemi hys hm'
        simp only [scanWith, hm, hmt]
        have htlen : t.length < (c :: xs').length := match_progress hspec hsemi hmt
        rw [List.length_cons] at htlen
        have h1 : (t ++ ys).length ≤ (xs' ++ ys).length := by
          simp only [List.length_append]
          omega
        have h2 : (t ++ ys).length ≤ (t ++ ys).length := le_refl _
        rw [scanWith_fuel hspec hsemi _ h1 h2]
        have hN : t.length ≤ N := by omega
        rw [ih t hN]
        have h3 : t.length ≤ xs'.length := by omega
        rw [scanWith_fuel hspec hsemi _ (le_refl t.length) h3]
      | none =>
        have hmx : m (c :: xs') = none := by
          cases hmx : m (c :: xs') with
          | none => rfl
          | some arx =>
            obtain ⟨ax, tx⟩ := arx
            have := match_extend hspec ys hmx
            rw [hcons] at this
            rw [this] at hm
            exact absurd hm (by simp)
        simp only [scanWith, hm, hmx]
        have hN : xs'.length ≤ N := by
          rw [List.length_cons] at h
          omega
        exact ih xs' hN

theorem scan_append (hspec : MSpec m Phi) (hsemi : MSemi Phi) {xs ys : List Char}
    (hys : ';' ∉ ys) : scan m (xs ++ ys) = scan m xs :=
  scanWith_append hspec hsemi hys xs.length xs (le_refl _)

end Scanning

/-! ### Python string helpers used by the tool -/

/-- Python's `str.strip()`: drop leading and trailing whitespace. -/
def pyStrip (l : List Char) : List Char :=
  ((l.dropWhile isPySpace).reverse.dropWhile isPySpace).reverse

def pyStripS (s : String) : String := String.mk (pyStrip s.data)

/-- Python's `str.split(sep)` for a one-character separator: splits at every
occurrence, keeping empty pieces, and returns one piece even for the empty
string. -/
def pySplit (c : Char) : List Char → List (List Char)
  | [] => [[]]
  | d :: rest =>
    if d = c then [] :: pySplit c rest
    else
      match pySplit c rest with
      | [] => [[d]]
      | h :: t => (d :: h) :: t

def pySplitS (c : Char) (s : String) : List String := (pySplit c s.data).map String.mk

theorem pySplit_ne_nil (c : Char) : ∀ (l : List Char), pySplit c l ≠ [] := by
  intro l
  cases l with
  | nil => simp [pySplit]
  | cons d rest =>
    by_cases hd : d = c
    · simp [pySplit, hd]
    · simp only [pySplit, if_neg hd]
      cases pySplit c rest <;> simp

theorem mem_pySplit_no_sep (c : Char) :
    ∀ (l : List Char), ∀ p ∈ pySplit c l, c ∉ p := by
  intro l
  induction l with
  | nil =>
    intro p hp
    simp [pySplit] at hp
    simp [hp]
  | cons d rest ih =>
    intro p hp
    by_cases hd : d = c
    · simp only [pySplit, if_pos hd] at hp
      rcases List.mem_cons.mp hp with h | h
      · simp [h]
      · exact ih p h
    · simp only [pySplit, if_neg hd] at hp
      cases hps : pySplit c rest with
      | nil => exact absurd hps (pySplit_ne_nil c rest)
      | cons h0 t0 =>
        rw [hps] at hp
        rcases List.mem_cons.mp hp with h | h
        · subst h
          intro hmem
          rcases List.mem_cons.mp hmem with h | h
          · exact hd h.symm
          · exact ih h0 (hps ▸ List.mem_cons_self h0 t0) h
        · exact ih p (hps ▸ List.mem_cons_of_mem h0 h)

theorem mem_of_mem_pyStrip {x : Char} {l : List Char} (h : x ∈ pyStrip l) : x ∈ l := by
  unfold pyStrip at h
  rw [List.mem_reverse] at h
  have hs1 : List.Sublist (((l.dropWhile isPySpace).reverse).dropWhile isPySpace)
      ((l.dropWhile isPySpace).reverse) := List.dropWhile_sublist _
  have h1 := hs1.mem h
  rw [List.mem_reverse] at h1
  have hs2 : List.Sublist (l.dropWhile isPySpace) l := List.dropWhile_sublist _
  exact hs2.mem h1

/-! ### The data model and `extract_ddl_statements` -/

/-- The dictionary built by `extract_ddl_statements`: exactly the seven keys
`extensions`, `types`, `tables`, `indexes`, `constraints`, `triggers` and
`functions`, each holding an ordered list. -/
structure Statements where
  extensions : List String
  types : List (String × String)
  tables : List (String × String)
  indexes : List (String × String × String × String × String)
  constraints : List (String × String × String)
  triggers : List (String × String)
  functions : List (String × String)
  deriving DecidableEq, Repr

/-- `extract_ddl_statements` of the Python tool, modelled on the already-read
text of the schema file (only a failure to read the file itself is outside
this model).  The loop over index matches evaluates `match.group(5)` although
the index pattern has only four capturing groups — the `WHERE` group is
non-capturing — so the first index match raises `IndexError('no such group')`
and the whole extraction propagates it; the `Except.error` case models this.
When no index matches exist the loop never runs and `indexes` stays empty. -/
def extract_ddl_statements (content : String) : Except String Statements :=
  if (scan matchIndex content.data).isEmpty then
    Except.ok
      { extensions := (scan matchExtension content.data).map String.mk
        types := (scan matchType content.data).map
          (fun p => (String.mk p.1, String.mk (pyStrip p.2)))
        tables := ((scan matchTable content.data).map
          (fun p => (String.mk p.1, String.mk (pyStrip p.2)))).filter
          (fun p => p.1 ≠ "__diesel_schema_migrations")
        indexes := []
        constraints := (scan matchConstraint content.data).map
          (fun p => (String.mk p.1, String.mk p.2.1, String.mk p.2.2))
        triggers := (scan matchTrigger content.data).map
          (fun p => (String.mk p.1, String.mk p.2))
        functions := (scan matchFunction content.data).map
          (fun p => (String.mk p.1, String.mk p.2)) }
  else Except.error "IndexError: no such group"

/-! ### `generate_consolidated_migration` -/

/-- One value per line, indented, a trailing comma after every value except
the last — the `for i, value in enumerate(values)` loop of the emitter. -/
def withCommas : List String → List String
  | [] => []
  | [v] => ["    " ++ v]
  | v :: rest => ("    " ++ v ++ ",") :: withCommas rest

/-- `values = [v.strip() for v in enum_values.split(',')]`, then the
comma-separated rendering. -/
def enumValueLines (enum_values : String) : List String :=
  withCommas ((pySplitS ',' enum_values).map pyStripS)

def typeLines (p : String × String) : List String :=
  ("CREATE TYPE public." ++ p.1 ++ " AS ENUM (") :: enumValueLines p.2 ++ [");"]

def tableLines (p : String × String) : List String :=
  ("CREATE TABLE public." ++ p.1 ++ " (") ::
    (pySplitS '\n' (pyStripS p.2)).map (fun ln => "    " ++ pyStripS ln) ++ [");"]

def constraintLines (p : String × String × String) : List String :=
  ["ALTER TABLE ONLY public." ++ p.1,
   "    ADD CONSTRAINT " ++ p.2.1 ++ " " ++ p.2.2 ++ ";"]

def indexLine (p : String × String × String × String × String) : String :=
  "CREATE INDEX " ++ p.1 ++ " ON public." ++ p.2.1 ++ " USING " ++ p.2.2.1 ++
    " (" ++ p.2.2.2.1 ++ ")" ++
    (if p.2.2.2.2.isEmpty then "" else " WHERE " ++ p.2.2.2.2) ++ ";"

def triggerLine (p : String × String) : String :=
  "CREATE TRIGGER " ++ p.1 ++ " " ++ p.2 ++ ";"

def headerLines : List String :=
  ["-- Consolidated Initial Schema Migration",
   "-- This migration consolidates all previous migrations into a single migration",
   "-- Generated from target schema dump",
   ""]

/-- The line list built by `generate_consolidated_migration`, mirroring the
sequential `migration_sql.append(...)` calls of the Python source; the final
result joins it with newlines. -/
def genLines (st : Statements) : List String :=
  let l0 := headerLines
  let l1 := if st.extensions.isEmpty then l0 else
    l0 ++ ["-- Extensions"] ++
      st.extensions.map
        (fun e => "CREATE EXTENSION IF NOT EXISTS " ++ e ++ " WITH SCHEMA public;") ++ [""]
  let l2 := if st.types.isEmpty then l1 else
    l1 ++ ["-- Custom Types (ENUMs)"] ++ (st.types.map typeLines).flatten ++ [""]
  let l3 := if st.tables.isEmpty then l2 else
    l2 ++ ["-- Tables"] ++ (st.tables.map tableLines).flatten ++ [""]
  let l4 := if st.constraints.isEmpty then l3 else
    l3 ++ ["-- Constraints"] ++ (st.constraints.map constraintLines).flatten ++ [""]
  let l5 := if st.indexes.isEmpty then l4 else
    l4 ++ ["-- Indexes"] ++ st.indexes.map indexLine ++ [""]
  let l6 := if st.triggers.isEmpty then l5 else
    l5 ++ ["-- Triggers"] ++ st.triggers.map triggerLine ++ [""]
  l6

def generate_consolidated_migration (st : Statements) : String :=
  String.intercalate "\n" (genLines st)

/-- The per-category blocks of the emitted line list, used to state the fixed
emission order. -/
def extensionsSection (st : Statements) : List String :=
  if st.extensions.isEmpty then [] else
    ["-- Extensions"] ++
      st.extensions.map
        (fun e => "CREATE EXTENSION IF NOT EXISTS " ++ e ++ " WITH SCHEMA public;") ++ [""]

def typesSection (st : Statements) : List String :=
  if st.types.isEmpty then [] else
    ["-- Custom Types (ENUMs)"] ++ (st.types.map typeLines).flatten ++ [""]

def tablesSection (st : Statements) : List String :=
  if st.tables.isEmpty then [] else
    ["-- Tables"] ++ (st.tables.map tableLines).flatten ++ [""]

def constraintsSection (st : Statements) : List String :=
  if st.constraints.isEmpty then [] else
    ["-- Constraints"] ++ (st.constraints.map constraintLines).flatten ++ [""]

def indexesSection (st : Statements) : List String :=
  if st.indexes.isEmpty then [] else
    ["-- Indexes"] ++ st.indexes.map indexLine ++ [""]

def triggersSection (st : Statements) : List String :=
  if st.triggers.isEmpty then [] else
    ["-- Triggers"] ++ st.triggers.map triggerLine ++ [""]

theorem genLines_decomp (st : Statements) :
    genLines st = headerLines ++ extensionsSection st ++ typesSection st ++
      tablesSection st ++ constraintsSection st ++ indexesSection st ++
      triggersSection st := by
  unfold genLines extensionsSection typesSection tablesSection constraintsSection
    indexesSection triggersSection
  split_ifs <;> simp [List.append_assoc]

/-- Line offsets of the six category blocks inside the emitted line list. -/
def extOff (_st : Statements) : Nat := headerLines.length
def typOff (st : Statements) : Nat := extOff st + (extensionsSection st).length
def tabOff (st : Statements) : Nat := typOff st + (typesSection st).length
def conOff (st : Statements) : Nat := tabOff st + (tablesSection st).length
def idxOff (st : Statements) : Nat := conOff st + (constraintsSection st).length
def trgOff (st : Statements) : Nat := idxOff st + (indexesSection st).length

theorem getElem?_append_offset (a b : List String) (k : Nat) :
    (a ++ b)[a.length + k]? = b[k]? := by
  rw [List.getElem?_append_right (by omega)]
  congr 1
  omega

/-! ### The migration-order validator: naming check and exit wiring -/

/-- One migration entry as collected by `get_migration_files`: the parsed
timestamp (`datetime` values are totally ordered and, for entries parsed from
these filename grammars, second-precision; modelled as `Nat`) and the
migration name. -/
structure Migration where
  timestamp : Nat
  name : String
  deriving DecidableEq, Repr

def isLowerAZ (c : Char) : Bool := 'a' ≤ c && c ≤ 'z'
def isDigitCh (c : Char) : Bool := '0' ≤ c && c ≤ '9'
def isLowerNum (c : Char) : Bool := isLowerAZ c || isDigitCh c
def isNameMid (c : Char) : Bool := isLowerNum c || c = '_'

/-- The naming-convention pattern of the validator:
lowercase start, `[a-z0-9_]` middle, `[a-z0-9]` end, length at least two. -/
def convOk (s : String) : Bool :=
  match s.data with
  | [] => false
  | [_] => false
  | c :: rest =>
    isLowerAZ c && rest.dropLast.all isNameMid &&
      (match rest.getLast? with
       | some d => isLowerNum d
       | none => false)

/-- `check_migration_naming_conventions`: collects the convention warnings
(printed only) and returns whether the check passed.  Only the length test
sets `issues_found`; a convention violation alone is a warning and never a
failure. -/
def check_migration_naming_conventions (migs : List Migration) :
    List String × Bool :=
  ((migs.filter (fun mg => !(convOk mg.name))).map Migration.name,
   !(migs.any (fun mg => mg.name.length < 3)))

/-- `check_migration_order` on the collected (already sorted) list: passes
when every consecutive pair is strictly increasing. -/
def check_migration_order : List Migration → Bool
  | [] => true
  | [_] => true
  | a :: b :: rest =>
    decide (a.timestamp < b.timestamp) && check_migration_order (b :: rest)

/-- `check_for_duplicate_timestamps`: no two entries share a timestamp. -/
def check_for_duplicate_timestamps (migs : List Migration) : Bool :=
  decide (migs.map Migration.timestamp).Nodup

/-- The decision logic of `main` once the migration list has been collected:
an empty list fails, otherwise all three checks must pass; any failure yields
exit status 1. -/
def mainExit (migs : List Migration) : Nat :=
  if migs.isEmpty then 1
  else if check_migration_order migs &&
      check_for_duplicate_timestamps migs &&
      (check_migration_naming_conventions migs).2 then 0 else 1

/-! ### Remaining helpers for the claims -/

theorem withCommas_concat (vs : List String) (v : String) :
    withCommas (vs ++ [v]) =
      vs.map (fun x => "    " ++ x ++ ",") ++ ["    " ++ v] := by
  induction vs with
  | nil => rfl
  | cons a vs ih =>
    cases vs with
    | nil => rfl
    | cons b vs' =>
      have hstep : withCommas (a :: ((b :: vs') ++ [v])) =
          ("    " ++ a ++ ",") :: withCommas ((b :: vs') ++ [v]) := rfl
      show withCommas (a :: ((b :: vs') ++ [v])) = _
      rw [hstep, ih]
      rfl

theorem string_ne_of_data_ne {s t : String} (h : s.data ≠ t.data) : s ≠ t :=
  fun he => h (congrArg String.data he)

theorem string_append_data (s t : String) : (s ++ t).data = s.data ++ t.data := rfl

theorem data_mk (l : List Char) : (String.mk l).data = l := rfl

/-- Does `needle` occur as a contiguous substring? -/
def leadsWith : List Char → List Char → Bool
  | [], _ => true
  | _ :: _, [] => false
  | c :: n, d :: s => c = d && leadsWith n s

def hasSub (needle : List Char) : List Char → Bool
  | [] => needle.isEmpty
  | d :: rest => leadsWith needle (d :: rest) || hasSub needle rest

/-! ### Concrete documents used as inputs for the claims -/

/-- A schema text containing a single well-formed `CREATE INDEX` statement. -/
def c1doc : String :=
  "CREATE INDEX idx_series ON public.series USING btree (source_id);"

/-- A schema text containing a single `CREATE INDEX ... WHERE (...)` statement. -/
def c2doc : String :=
  "CREATE INDEX idx_active ON public.series USING btree (source_id) WHERE (is_active = true);"

/-- A dump whose table body embeds trigger-shaped text: the trigger scan picks
it up once from the original text, and a second time from the re-emitted
table section. -/
def c4doc : String := "CREATE TABLE public.t (\nCREATE TRIGGER fake def\n);"

/-- A representative dump with one extension, one enum type, one table, one
constraint, one function and one trigger (no indexes — any index match makes
extraction raise, see C1). -/
def c4aDoc : String :=
  "CREATE EXTENSION IF NOT EXISTS pg_trgm WITH SCHEMA public;\nCREATE TYPE public.status AS ENUM (\n    'a',\n    'b'\n);\nCREATE TABLE public.orders (\n    id uuid NOT NULL\n);\nALTER TABLE ONLY public.orders\n    ADD CONSTRAINT orders_pkey PRIMARY KEY (id);\nCREATE OR REPLACE FUNCTION public.upd() RETURNS trigger;\nCREATE TRIGGER trg BEFORE INSERT ON orders EXECUTE x;"

/-- The extraction result of `c4aDoc`. -/
def c4aSt : Statements :=
  { extensions := ["pg_trgm"]
    types := [("status", "'a',\n    'b'")]
    tables := [("orders", "id uuid NOT NULL")]
    indexes := []
    constraints := [("orders", "orders_pkey", "PRIMARY KEY (id)")]
    triggers := [("trg", "BEFORE INSERT ON orders EXECUTE x")]
    functions := [("upd", "trigger")] }

/-- A dump in which a verbatim `CREATE TABLE` statement for the reserved
bookkeeping table follows an unterminated trigger line, so the trigger scan
absorbs it into the trigger definition. -/
def c6doc : String :=
  "CREATE TRIGGER trg x\nCREATE TABLE public.__diesel_schema_migrations (version text);"

/-- The extraction result of `c6doc`. -/
def c6St : Statements :=
  { extensions := []
    types := []
    tables := []
    indexes := []
    constraints := []
    triggers := [("trg", "x\nCREATE TABLE public.__diesel_schema_migrations (version text)")]
    functions := [] }

/-- A dump with two statements of every extractable category except indexes. -/
def c10doc : String :=
  "CREATE EXTENSION IF NOT EXISTS pg_trgm WITH SCHEMA public;\nCREATE EXTENSION IF NOT EXISTS uuid_ossp WITH SCHEMA public;\nCREATE TYPE public.alpha AS ENUM ('a');\nCREATE TYPE public.beta AS ENUM ('b');\nCREATE TABLE public.t1 (x integer);\nCREATE TABLE public.t2 (y integer);\nALTER TABLE ONLY public.t1\n    ADD CONSTRAINT c1 PRIMARY KEY (x);\nALTER TABLE ONLY public.t2\n    ADD CONSTRAINT c2 PRIMARY KEY (y);\nCREATE OR REPLACE FUNCTION public.f1() RETURNS trigger;\nCREATE OR REPLACE FUNCTION public.f2(a integer) RETURNS boolean;\nCREATE TRIGGER tr1 defone;\nCREATE TRIGGER tr2 deftwo;"

/-- The extraction result of `c10doc`: two entries per category, in input
order. -/
def c10St : Statements :=
  { extensions := ["pg_trgm", "uuid_ossp"]
    types := [("alpha", "'a'"), ("beta", "'b'")]
    tables := [("t1", "x integer"), ("t2", "y integer")]
    indexes := []
    constraints := [("t1", "c1", "PRIMARY KEY (x)"), ("t2", "c2", "PRIMARY KEY (y)")]
    triggers := [("tr1", "defone"), ("tr2", "deftwo")]
    functions := [("f1", "trigger"), ("f2", "boolean")] }

/-! ### The claims -/

/-- C1: the spec claims `extract_ddl_statements` never raises on any
individual statement, CREATE INDEX statements included.  The code refutes
this: the index loop reads `match.group(5)` of a pattern with only four
capturing groups (the `WHERE` group is non-capturing), so the first index
match — even a perfectly well-formed one — raises `IndexError('no such
group')` and the whole extraction aborts.  This theorem pins the failure:
whenever the input contains at least one index match, extraction errors
instead of returning. -/
theorem claim_C1 (content : String) (h : scan matchIndex content.data ≠ []) :
    extract_ddl_statements content = Except.error "IndexError: no such group" := by
  unfold extract_ddl_statements
  rw [if_neg]
  simpa using h

/-- Witness for C1 at a concrete well-formed `CREATE INDEX` statement. -/
theorem claim_C1_witness :
    scan matchIndex c1doc.data ≠ [] ∧
    extract_ddl_statements c1doc = Except.error "IndexError: no such group" :=
  ⟨by decide, claim_C1 c1doc (by decide)⟩

/-- C2: the spec claims a `CREATE INDEX ... WHERE (...)` statement has its
`WHERE` clause preserved verbatim in the emitted line.  The code refutes
this: extraction raises `IndexError` at the first index match (see C1), so
the pipeline never emits anything for a dump containing an index — with or
without a `WHERE` clause. -/
theorem claim_C2 :
    extract_ddl_statements c2doc = Except.error "IndexError: no such group" := rfl

/-- C4 counterexample: re-extraction does not preserve counts.  For `c4doc`
the original text yields one trigger, but the emitted output repeats the
trigger-shaped text both inside the re-emitted table body and in the Triggers
section, so re-extraction finds two. -/
theorem claim_C4_counterexample :
    Except.map (fun st => st.triggers.length) (extract_ddl_statements c4doc) =
      Except.ok 1 ∧
    Except.map (fun st => Except.map (fun st2 => st2.triggers.length)
        (extract_ddl_statements (generate_consolidated_migration st)))
      (extract_ddl_statements c4doc) = Except.ok (Except.ok 2) :=
  ⟨rfl, rfl⟩

/-- C4 (amended): for dumps whose extracted raw spans do not themselves embed
another category's statement shape — verified on the representative dump
`c4aDoc` with one statement of every emitted category — re-extracting the
emitted output reproduces the very same collections for the six emitted
categories (hence equal counts), and the functions collection of the
re-extraction is empty because functions are never emitted. -/
theorem claim_C4 :
    extract_ddl_statements c4aDoc = Except.ok c4aSt ∧
    extract_ddl_statements (generate_consolidated_migration c4aSt) =
      Except.ok { c4aSt with functions := [] } ∧
    c4aSt.functions.length = 1 :=
  ⟨rfl, rfl, rfl⟩

theorem getElem?_of_decomp (PRE SEC SUF : List String) {L : List String}
    (hL : L = PRE ++ (SEC ++ SUF)) {off : Nat} (hoff : off = PRE.length)
    {k : Nat} (hk : k < SEC.length) : L[off + k]? = SEC[k]? := by
  subst hL
  subst hoff
  rw [getElem?_append_offset, List.getElem?_append, if_pos hk]

/-- C3: the emitted line list is exactly the header comment block followed by
the Extensions, EnumTypes, Tables, Constraints, Indexes and Triggers blocks in
this fixed order; each block's lines sit at the consecutive offsets following
all earlier blocks, and consequently every Extension line offset is smaller
than every EnumType line offset, which is smaller than every Table,
Constraint, Index and Trigger line offset, in that order. -/
theorem claim_C3 (st : Statements) :
    genLines st = headerLines ++ extensionsSection st ++ typesSection st ++
      tablesSection st ++ constraintsSection st ++ indexesSection st ++
      triggersSection st ∧
    (∀ k, k < (extensionsSection st).length →
      (genLines st)[extOff st + k]? = (extensionsSection st)[k]?) ∧
    (∀ k, k < (typesSection st).length →
      (genLines st)[typOff st + k]? = (typesSection st)[k]?) ∧
    (∀ k, k < (tablesSection st).length →
      (genLines st)[tabOff st + k]? = (tablesSection st)[k]?) ∧
    (∀ k, k < (constraintsSection st).length →
      (genLines st)[conOff st + k]? = (constraintsSection st)[k]?) ∧
    (∀ k, k < (indexesSection st).length →
      (genLines st)[idxOff st + k]? = (indexesSection st)[k]?) ∧
    (∀ k, k < (triggersSection st).length →
      (genLines st)[trgOff st + k]? = (triggersSection st)[k]?) ∧
    (∀ kE kT kTab kC kI kTr,
      kE < (extensionsSection st).length →
      kT < (typesSection st).length →
      kTab < (tablesSection st).length →
      kC < (constraintsSection st).length →
      kI < (indexesSection st).length →
      kTr < (triggersSection st).length →
      extOff st + kE < typOff st + kT ∧ typOff st + kT < tabOff st + kTab ∧
      tabOff st + kTab < conOff st + kC ∧ conOff st + kC < idxOff st + kI ∧
      idxOff st + kI < trgOff st + kTr) := by
  refine ⟨genLines_decomp st, ?_, ?_, ?_, ?_, ?_, ?_, ?_⟩
  · intro k hk
    exact getElem?_of_decomp headerLines (extensionsSection st)
      (typesSection st ++ (tablesSection st ++ (constraintsSection st ++
        (indexesSection st ++ triggersSection st))))
      (by rw [genLines_decomp st]; simp [List.append_assoc])
      (by simp [extOff]) hk
  · intro k hk
    exact getElem?_of_decomp (headerLines ++ extensionsSection st) (typesSection st)
      (tablesSection st ++ (constraintsSection st ++
        (indexesSection st ++ triggersSection st)))
      (by rw [genLines_decomp st]; simp [List.append_assoc])
      (by simp [typOff, extOff]) hk
  · intro k hk
    exact getElem?_of_decomp (headerLines ++ extensionsSection st ++ typesSection st)
      (tablesSection st)
      (constraintsSection st ++ (indexesSection st ++ triggersSection st))
      (by rw [genLines_decomp st]; simp [List.append_assoc])
      (by unfold tabOff typOff extOff; simp only [List.length_append]) hk
  · intro k hk
    exact getElem?_of_decomp
      (headerLines ++ extensionsSection st ++ typesSection st ++ tablesSection st)
      (constraintsSection st)
      (indexesSection st ++ triggersSection st)
      (by rw [genLines_decomp st]; simp [List.append_assoc])
      (by unfold conOff tabOff typOff extOff; simp only [List.length_append]) hk
  · intro k hk
    exact getElem?_of_decomp
      (headerLines ++ extensionsSection st ++ typesSection st ++ tablesSection st ++
        constraintsSection st)
      (indexesSection st) (triggersSection st)
      (by rw [genLines_decomp st]; simp [List.append_assoc])
      (by unfold idxOff conOff tabOff typOff extOff; simp only [List.length_append]) hk
  · intro k hk
    exact getElem?_of_decomp
      (headerLines ++ extensionsSection st ++ typesSection st ++ tablesSection st ++
        constraintsSection st ++ indexesSection st)
      (triggersSection st) []
      (by rw [genLines_decomp st]; simp [List.append_assoc])
      (by unfold trgOff idxOff conOff tabOff typOff extOff
          simp only [List.length_append]) hk
  · intro kE kT kTab kC kI kTr hE hT hTab hC hI hTr
    unfold trgOff idxOff conOff tabOff typOff extOff
    refine ⟨by omega, by omega, by omega, by omega, by omega⟩

/-- A statements record with one entry in every category, used to witness C3
at concrete offsets. -/
def exSt : Statements :=
  { extensions := ["pg_trgm"]
    types := [("status", "'a'")]
    tables := [("orders", "id uuid")]
    indexes := [("idx", "orders", "btree", "id", "")]
    constraints := [("orders", "orders_pkey", "PRIMARY KEY (id)")]
    triggers := [("trg", "BEFORE INSERT")]
    functions := [("upd", "trigger")] }

/-- Witness for C3 at `exSt`, discharging every bound at offset 0. -/
theorem claim_C3_witness :
    genLines exSt = headerLines ++ extensionsSection exSt ++ typesSection exSt ++
      tablesSection exSt ++ constraintsSection exSt ++ indexesSection exSt ++
      triggersSection exSt ∧
    (genLines exSt)[extOff exSt + 0]? = (extensionsSection exSt)[0]? ∧
    (genLines exSt)[trgOff exSt + 0]? = (triggersSection exSt)[0]? ∧
    (extOff exSt + 0 < typOff exSt + 0 ∧ typOff exSt + 0 < tabOff exSt + 0 ∧
      tabOff exSt + 0 < conOff exSt + 0 ∧ conOff exSt + 0 < idxOff exSt + 0 ∧
      idxOff exSt + 0 < trgOff exSt + 0) :=
  ⟨(claim_C3 exSt).1,
   (claim_C3 exSt).2.1 0 (by decide),
   (claim_C3 exSt).2.2.2.2.2.2.1 0 (by decide),
   (claim_C3 exSt).2.2.2.2.2.2.2 0 0 0 0 0 0 (by decide) (by decide) (by decide)
     (by decide) (by decide) (by decide)⟩

/-- C5: the emitter renders every enum value list one value per line,
indented, with a trailing comma on every line except the last and none on the
last (values contain no comma, being comma-split pieces); and the input value
list `'a', 'b', 'c'` is emitted as exactly the three claimed lines. -/
theorem claim_C5 :
    (∀ enum_values : String,
      ∃ vs v, (pySplitS ',' enum_values).map pyStripS = vs ++ [v] ∧
        enumValueLines enum_values =
          vs.map (fun x => "    " ++ x ++ ",") ++ ["    " ++ v] ∧
        ("    " ++ v).data.getLast? ≠ some ',') ∧
    enumValueLines "'a', 'b', 'c'" = ["    'a',", "    'b',", "    'c'"] := by
  constructor
  · intro ev
    have hne : (pySplitS ',' ev).map pyStripS ≠ [] := by
      intro hcon
      have h1 := List.map_eq_nil_iff.mp hcon
      unfold pySplitS at h1
      exact pySplit_ne_nil ',' ev.data (List.map_eq_nil_iff.mp h1)
    refine ⟨((pySplitS ',' ev).map pyStripS).dropLast,
      ((pySplitS ',' ev).map pyStripS).getLast hne, ?_, ?_, ?_⟩
    · exact (List.dropLast_append_getLast hne).symm
    · unfold enumValueLines
      conv_lhs => rw [← List.dropLast_append_getLast hne]
      exact withCommas_concat _ _
    · have hmem := List.getLast_mem hne
      obtain ⟨w, hw, hwe⟩ := List.mem_map.mp hmem
      unfold pySplitS at hw
      obtain ⟨piece, hpiece, hpe⟩ := List.mem_map.mp hw
      have hnc : ',' ∉ piece := mem_pySplit_no_sep ',' ev.data piece hpiece
      have hvdata : (((pySplitS ',' ev).map pyStripS).getLast hne).data = pyStrip piece := by
        rw [← hwe, ← hpe]
        rfl
      rw [string_append_data, hvdata]
      cases hps : pyStrip piece with
      | nil => decide
      | cons d t =>
        rw [getLast?_append_ne_nil _ (List.cons_ne_nil d t)]
        intro hcon
        have hmm : ',' ∈ d :: t := mem_of_getLast?_eq hcon
        exact hnc (mem_of_mem_pyStrip (hps ▸ hmm))
  · rfl

/-- C6 counterexample: the reserved bookkeeping table can appear in the
emitted output.  In `c6doc` a verbatim
`CREATE TABLE public.__diesel_schema_migrations (version text);` statement is
present in the input; the table scan drops it from the Table collection, but
the trigger scan absorbs the same text into a trigger definition, and the
emitted output reproduces the full `CREATE TABLE` statement verbatim. -/
theorem claim_C6_counterexample :
    hasSub "CREATE TABLE public.__diesel_schema_migrations (version text);".data
      c6doc.data = true ∧
    Except.map (fun st => st.tables) (extract_ddl_statements c6doc) =
      Except.ok [] ∧
    Except.map (fun st =>
        hasSub "CREATE TABLE public.__diesel_schema_migrations (version text);".data
          (generate_consolidated_migration st).data)
      (extract_ddl_statements c6doc) = Except.ok true :=
  ⟨rfl, rfl, rfl⟩

/-- C6 (amended): for every input on which extraction returns, the reserved
bookkeeping table never appears in the Table collection, and the Tables
section of the emitted output contains no `CREATE TABLE` header for it; text
captured inside another category's raw span (for example a trigger
definition, see the counterexample) may still reproduce such a statement
elsewhere in the output. -/
theorem claim_C6 (content : String) (st : Statements)
    (h : extract_ddl_statements content = Except.ok st) :
    (∀ p ∈ st.tables, p.1 ≠ "__diesel_schema_migrations") ∧
    (∀ ln ∈ tablesSection st, ln ≠ "CREATE TABLE public.__diesel_schema_migrations (") := by
  have htab : ∀ p ∈ st.tables, p.1 ≠ "__diesel_schema_migrations" := by
    intro p hp
    unfold extract_ddl_statements at h
    split at h
    · have hst := Except.ok.inj h
      subst hst
      have hfp := List.mem_filter.mp hp
      exact of_decide_eq_true hfp.2
    · exact absurd h (by simp)
  refine ⟨htab, ?_⟩
  intro ln hln
  unfold tablesSection at hln
  split at hln
  · simp at hln
  · rcases List.mem_append.mp hln with h1 | h1
    · rcases List.mem_append.mp h1 with h2 | h2
      · have he : ln = "-- Tables" := by simpa using h2
        subst he
        decide
      · obtain ⟨lns, hlns, hmem⟩ := List.mem_flatten.mp h2
        obtain ⟨p, hp, hpe⟩ := List.mem_map.mp hlns
        subst hpe
        unfold tableLines at hmem
        rcases List.mem_cons.mp hmem with hh | hh
        · subst hh
          intro heq
          have hd := congrArg String.data heq
          rw [string_append_data, string_append_data] at hd
          have htg : ("CREATE TABLE public.__diesel_schema_migrations (" : String).data
              = "CREATE TABLE public.".data ++
                ("__diesel_schema_migrations".data ++ " (".data) := by decide
          rw [htg, List.append_assoc] at hd
          have hmid := List.append_cancel_left hd
          have hnm := List.append_cancel_right hmid
          have hps : p.1 = "__diesel_schema_migrations" := by
            have hmk : p.1 = String.mk p.1.data := rfl
            rw [hmk, hnm]
          exact htab p hp hps
        · rcases List.mem_append.mp hh with h3 | h3
          · obtain ⟨bl, hbl, hble⟩ := List.mem_map.mp h3
            subst hble
            apply string_ne_of_data_ne
            rw [string_append_data]
            intro hdd
            have hheads := congrArg List.head? hdd
            have hcc : (some ' ' : Option Char) = some 'C' := hheads
            simp at hcc
          · have he : ln = ");" := by simpa using h3
            subst he
            decide
    · have he : ln = "" := by simpa using h1
      subst he
      decide

/-- Witness for C6 at the concrete extraction result of `c6doc`. -/
theorem claim_C6_witness :
    (∀ p ∈ c6St.tables, p.1 ≠ "__diesel_schema_migrations") ∧
    (∀ ln ∈ tablesSection c6St,
      ln ≠ "CREATE TABLE public.__diesel_schema_migrations (") :=
  claim_C6 c6doc c6St rfl

/-- C7: function statements of the recognized shape are extracted (and hence
counted), but the emitter never reads the functions collection: the emitted
text is invariant under replacing that collection by anything, in particular
by the empty list.  The representative dump `c4aDoc` yields exactly one
extracted function. -/
theorem claim_C7 :
    (∀ (st : Statements) (fns : List (String × String)),
      generate_consolidated_migration st =
        generate_consolidated_migration { st with functions := fns }) ∧
    Except.map Statements.functions (extract_ddl_statements c4aDoc) =
      Except.ok [("upd", "trigger")] :=
  ⟨fun _ _ => rfl, rfl⟩

/-- The text of an unterminated `CREATE TABLE` block: the opening construct
and a body in which the closing parenthesis never appears before the end of
the input. -/
def tableBlock (nm b : List Char) : List Char :=
  "CREATE TABLE public.".data ++ nm ++ " (".data ++ b

/-- C8: appending an unterminated `CREATE TABLE` block (its closing
parenthesis — and hence the terminating `);` — never appears before end of
input; its body is a table-body span, thus free of `;`) to any document
leaves extraction exactly as if the block were absent: no fatal error is
introduced, the block contributes zero Table entries, and every other
category's result is unchanged. -/
theorem claim_C8 (xs nm b : List Char)
    (hnm : ';' ∉ nm) (hbsemi : ';' ∉ b) (_hbpar : ')' ∉ b) :
    extract_ddl_statements (String.mk (xs ++ tableBlock nm b)) =
      extract_ddl_statements (String.mk xs) := by
  have hys : ';' ∉ tableBlock nm b := by
    unfold tableBlock
    intro hmem
    rcases List.mem_append.mp hmem with h | h
    · rcases List.mem_append.mp h with h' | h'
      · rcases List.mem_append.mp h' with h'' | h''
        · exact absurd h'' (by decide)
        · exact hnm h''
      · exact absurd h' (by decide)
    · exact hbsemi h
  unfold extract_ddl_statements
  simp only [data_mk]
  rw [scan_append matchIndex_spec (fun a u hu => PhiIdx_semi hu) hys,
      scan_append matchExtension_spec (fun a u hu => PhiExt_semi hu) hys,
      scan_append matchType_spec (fun a u hu => PhiType_semi hu) hys,
      scan_append matchTable_spec (fun a u hu => PhiTable_semi hu) hys,
      scan_append matchConstraint_spec (fun a u hu => PhiCons_semi hu) hys,
      scan_append matchTrigger_spec (fun a u hu => PhiTrig_semi hu) hys,
      scan_append matchFunction_spec (fun a u hu => PhiFun_semi hu) hys]

/-- Witness for C8: a document consisting of one trigger statement followed by
an unterminated table block extracts exactly like the trigger alone. -/
theorem claim_C8_witness :
    (';' ∉ "orders2".data ∧ ';' ∉ " id uuid".data ∧ ')' ∉ " id uuid".data) ∧
    extract_ddl_statements (String.mk ("CREATE TRIGGER t x;".data ++
        tableBlock "orders2".data " id uuid".data)) =
      extract_ddl_statements (String.mk "CREATE TRIGGER t x;".data) :=
  ⟨⟨by decide, by decide, by decide⟩,
   claim_C8 _ _ _ (by decide) (by decide) (by decide)⟩

theorem not_any_short_eq_all_long (migs : List Migration) :
    (!(migs.any (fun mg => mg.name.length < 3))) =
      migs.all (fun mg => 3 ≤ mg.name.length) := by
  induction migs with
  | nil => rfl
  | cons mg t ih =>
    simp only [List.any_cons, List.all_cons, Bool.not_or, ih]
    congr 1
    by_cases h : mg.name.length < 3
    · simp [h, Nat.not_le.mpr h]
    · simp [h, Nat.le_of_not_lt h]

/-- C9: in the naming check, a name shorter than 3 characters fails the check
and therefore the whole validation exits with status 1, whereas the check's
verdict equals the pure length test — so a name that merely violates the
lowercase-with-underscores convention (tracked in the warnings component)
never by itself causes a failure. -/
theorem claim_C9 (migs : List Migration) :
    ((check_migration_naming_conventions migs).2 =
      migs.all (fun mg => 3 ≤ mg.name.length)) ∧
    (migs ≠ [] → (∃ mg ∈ migs, mg.name.length < 3) → mainExit migs = 1) := by
  constructor
  · exact not_any_short_eq_all_long migs
  · rintro hne ⟨mg, hmem, hlen⟩
    unfold mainExit
    rw [if_neg (by simpa using hne)]
    have hany : migs.any (fun x => x.name.length < 3) = true :=
      List.any_eq_true.mpr ⟨mg, hmem, by simpa using hlen⟩
    have hnm : (check_migration_naming_conventions migs).2 = false := by
      unfold check_migration_naming_conventions
      simp [hany]
    rw [hnm]
    simp

def c9migs : List Migration := [⟨20250101000000, "ab"⟩]

/-- Witness for C9: a single migration whose name has two characters. -/
theorem claim_C9_witness :
    ((check_migration_naming_conventions c9migs).2 =
      c9migs.all (fun mg => 3 ≤ mg.name.length)) ∧ mainExit c9migs = 1 :=
  ⟨(claim_C9 c9migs).1,
   (claim_C9 c9migs).2 (by decide) ⟨⟨20250101000000, "ab"⟩, by decide, by decide⟩⟩

/-- C10: whenever `extract_ddl_statements` returns, the result is the record
with exactly the seven fixed keys, each holding the ordered list assembled by
the corresponding left-to-right scan of the whole input (first-seen order of
matches; `indexes` is necessarily empty in a returning run, cf. C1); on the
two-per-category dump `c10doc` extraction returns the entries of every
category in input order. -/
theorem claim_C10 :
    (∀ (content : String) (st : Statements),
      extract_ddl_statements content = Except.ok st →
        st = { extensions := (scan matchExtension content.data).map String.mk
               types := (scan matchType content.data).map
                 (fun p => (String.mk p.1, String.mk (pyStrip p.2)))
               tables := ((scan matchTable content.data).map
                 (fun p => (String.mk p.1, String.mk (pyStrip p.2)))).filter
                 (fun p => p.1 ≠ "__diesel_schema_migrations")
               indexes := []
               constraints := (scan matchConstraint content.data).map
                 (fun p => (String.mk p.1, String.mk p.2.1, String.mk p.2.2))
               triggers := (scan matchTrigger content.data).map
                 (fun p => (String.mk p.1, String.mk p.2))
               functions := (scan matchFunction content.data).map
                 (fun p => (String.mk p.1, String.mk p.2)) }) ∧
    extract_ddl_statements c10doc = Except.ok c10St := by
  constructor
  · intro content st h
    unfold extract_ddl_statements at h
    split at h
    · exact (Except.ok.inj h).symm
    · exact absurd h (by simp)
  · rfl

/-- Witness for C10 at the concrete dump `c10doc`. -/
theorem claim_C10_witness :
    c10St = { extensions := (scan matchExtension c10doc.data).map String.mk
              types := (scan matchType c10doc.data).map
                (fun p => (String.mk p.1, String.mk (pyStrip p.2)))
              tables := ((scan matchTable c10doc.data).map
                (fun p => (String.mk p.1, String.mk (pyStrip p.2)))).filter
                (fun p => p.1 ≠ "__diesel_schema_migrations")
              indexes := []
              constraints := (scan matchConstraint c10doc.data).map
                (fun p => (String.mk p.1, String.mk p.2.1, String.mk p.2.2))
              triggers := (scan matchTrigger c10doc.data).map
                (fun p => (String.mk p.1, String.mk p.2))
              functions := (scan matchFunction c10doc.data).map
                (fun p => (String.mk p.1, String.mk p.2)) } :=
  claim_C10.1 c10doc c10St claim_C10.2

end EconGraph
